import Mathlib

/-!
# TClient AngelScript runner: bytecode stream, state queries and the run lifecycle

A shallow embedding of `src/game/client/components/tclient/angelscript.cpp`.
Bytes are natural numbers, C strings are `String`, a null pointer is `none`.
The scripting virtual machine, the storage and the hash function are external
to the file and enter the embedding as parameters.
-/

namespace TClient

/-! ## Constants of the AngelScript header -/

/-- Return code `asSUCCESS` of the AngelScript API. -/
def asSUCCESS : Int := 0

/-- Return code `asERROR` of the AngelScript API. -/
def asERROR : Int := -1

/-- Context state `asEXECUTION_FINISHED` of the AngelScript API. -/
def asEXECUTION_FINISHED : Int := 0

/-- Context state `asEXECUTION_EXCEPTION` of the AngelScript API. -/
def asEXECUTION_EXCEPTION : Int := 3

/-- Width of `size_t` on the 64-bit targets of the client. -/
def SIZE_BITS : Nat := 64

/-- Width of `asUINT` (`unsigned int`). -/
def ASUINT_BITS : Nat := 32

/-! ## CBytecodeStream -/

/-- The stream adapter `CBytecodeStream`. `m_pOut` holds the vector it points
to (`none` for a null pointer), `m_pIn` the buffer it points to. -/
structure CBytecodeStream where
  m_pOut : Option (List Nat)
  m_pIn : Option (List Nat)
  m_InSize : Nat
  m_Offset : Nat
  deriving DecidableEq, Repr

/-- The value-initialised stream `CBytecodeStream S{}`. -/
def CBytecodeStream.init : CBytecodeStream :=
  { m_pOut := none, m_pIn := none, m_InSize := 0, m_Offset := 0 }

/-- `CBytecodeStream::Write(ptr, size)`: `p` is the `size` bytes at `ptr`.
Returns the return code and the stream afterwards. -/
def CBytecodeStream.Write (S : CBytecodeStream) (p : List Nat) : Int × CBytecodeStream :=
  match S.m_pOut with
  | none => (asERROR, S)
  | some out => (asSUCCESS, { S with m_pOut := some (out ++ p) })

/-- `CBytecodeStream::Read(ptr, size)`. Returns the return code, the bytes
copied to `ptr`, and the stream afterwards. The sum `m_Offset + size` is
computed in `size_t`. -/
def CBytecodeStream.Read (S : CBytecodeStream) (size : Nat) : Int × List Nat × CBytecodeStream :=
  match S.m_pIn with
  | none => (asERROR, [], S)
  | some buf =>
    if (S.m_Offset + size) % 2 ^ SIZE_BITS > S.m_InSize then (asERROR, [], S)
    else (asSUCCESS, (buf.drop S.m_Offset).take size,
          { S with m_Offset := (S.m_Offset + size) % 2 ^ SIZE_BITS })

/-! ## Bytecode cache -/

/-- The digest type `SHA256_DIGEST` of `base/hash.h`: its bytes. -/
abbrev SHA256_DIGEST := List Nat

/-- The value-initialised digest `SHA256_DIGEST{}`: 32 zero bytes. -/
def SHA256_DIGEST.zero : SHA256_DIGEST := List.replicate 32 0

/-- The cache entry `CCacheEntry`. -/
structure CCacheEntry where
  m_Hash : SHA256_DIGEST
  m_Bytecode : List Nat
  deriving DecidableEq, Repr

/-- The value-initialised entry that `s_Cache[Key]` inserts for a new key. -/
def CCacheEntry.init : CCacheEntry := { m_Hash := SHA256_DIGEST.zero, m_Bytecode := [] }

/-- The table `s_Cache` (`std::unordered_map<std::string, CCacheEntry>`):
`none` where the key has no entry. -/
abbrev Cache := String → Option CCacheEntry

/-- The empty table. -/
def Cache.empty : Cache := fun _ => none

/-- `s_Cache.find(Key)`: `none` stands for `s_Cache.end()`. -/
def Cache.find (c : Cache) (Key : String) : Option CCacheEntry := c Key

/-- `s_Cache[Key]`: the entry at `Key`, inserted value-initialised when absent. -/
def Cache.index (c : Cache) (Key : String) : CCacheEntry :=
  match c Key with
  | some e => e
  | none => CCacheEntry.init

/-- Assignment through `s_Cache[Key]`. -/
def Cache.set (c : Cache) (Key : String) (e : CCacheEntry) : Cache :=
  Function.update c Key (some e)

/-! ## The external virtual machine and host services -/

/-- A C++ exception in flight: one derived from `std::exception` (with its
`what()`), or anything else (caught only by `catch(...)`). -/
inductive Exn where
  | std (what : String)
  | other
  deriving DecidableEq, Repr

/-- Result of an external call that may throw. -/
inductive Outcome (α : Type) where
  | ret (a : α)
  | raise (e : Exn)
  deriving DecidableEq, Repr

/-- The return code of a call that also changes the module, or its exception. -/
def Outcome.code {M : Type} : Outcome (Int × M) → Outcome Int
  | Outcome.ret (rc, _) => Outcome.ret rc
  | Outcome.raise e => Outcome.raise e

/-- The registrations `AddGlobals` performs on the engine. -/
inductive Registration where
  | ObjectType (name : String)
  | ObjectBehaviour (obj : String) (behaviour : String) (decl : String)
  | ObjectMethod (obj : String) (decl : String)
  | StringFactory (type : String)
  | GlobalFunction (decl : String)
  | GlobalProperty (decl : String)
  deriving DecidableEq, Repr

/-- The engine calls made by `Run`, as they are recorded in the call trace,
each with what it gave back: a return code or an exception, a handle (`ok` is
false for a null pointer), or nothing. -/
inductive EngineCall where
  | Register (r : Registration) (res : Outcome Int)
  | GetModule (name : String) (ok : Bool)
  | LoadByteCode (image : List Nat) (res : Outcome Int)
  | DiscardModule (name : String)
  | AddScriptSection (name : String) (code : String) (res : Outcome Int)
  | Build (res : Outcome Int)
  | SaveByteCode (res : Outcome Int)
  | GetFunctionByDecl (decl : String) (res : Option Nat)
  | CreateContext (ok : Bool)
  | Prepare (fn : Nat) (rc : Int)
  | Execute (fn : Nat) (res : Outcome Int)
  | Release
  | ShutDownAndRelease
  deriving DecidableEq, Repr

/-- The exception a recorded call ended with, when it ended with one. -/
def EngineCall.raised : EngineCall → Option Exn
  | EngineCall.Register _ (Outcome.raise e) => some e
  | EngineCall.LoadByteCode _ (Outcome.raise e) => some e
  | EngineCall.AddScriptSection _ _ (Outcome.raise e) => some e
  | EngineCall.Build (Outcome.raise e) => some e
  | EngineCall.SaveByteCode (Outcome.raise e) => some e
  | EngineCall.Execute _ (Outcome.raise e) => some e
  | _ => none

/-- The part of `Run` a recorded call belongs to: globals registration,
module handling and cache loading, compilation and saving, entry resolution
and execution, engine teardown. -/
inductive Phase where
  | globals
  | module
  | compile
  | entry
  | teardown
  deriving DecidableEq, Repr

/-- The phase of a recorded call. -/
def EngineCall.phase : EngineCall → Phase
  | EngineCall.Register _ _ => Phase.globals
  | EngineCall.GetModule _ _ => Phase.module
  | EngineCall.LoadByteCode _ _ => Phase.module
  | EngineCall.DiscardModule _ => Phase.module
  | EngineCall.AddScriptSection _ _ _ => Phase.compile
  | EngineCall.Build _ => Phase.compile
  | EngineCall.SaveByteCode _ => Phase.compile
  | EngineCall.GetFunctionByDecl _ _ => Phase.entry
  | EngineCall.CreateContext _ => Phase.entry
  | EngineCall.Prepare _ _ => Phase.entry
  | EngineCall.Execute _ _ => Phase.entry
  | EngineCall.Release => Phase.entry
  | EngineCall.ShutDownAndRelease => Phase.teardown

/-- Everything `Run` consumes from outside the file. `M` is the state of a
script module (`asIScriptModule`); a function handle (`asIScriptFunction *`) is
a number. Calls that run host callbacks (registration, loading, compiling,
saving, executing) may throw; handle management does not.
`GetModule name` is the first `pEngine->GetModule(name, asGM_ALWAYS_CREATE)` of
a run (source line 389) and `GetModuleAfterDiscard name` is the same call made
again after `DiscardModule` (source line 417); the engine answers each call on
its own, and `none` is a null result.
`SaveByteCode` gives the byte blocks the engine passes to the stream's `Write`,
in order, and then how the call ends. -/
structure Env (M : Type) where
  ReadFileStr : String → Option String
  sha256 : String → SHA256_DIGEST
  asCreateScriptEngine : Bool
  Register : Registration → Outcome Int
  GetModule : String → Option M
  GetModuleAfterDiscard : String → Option M
  LoadByteCode : M → CBytecodeStream → Outcome (Int × M)
  AddScriptSection : M → String → String → Outcome (Int × M)
  Build : M → Outcome (Int × M)
  SaveByteCode : M → List (List Nat) × Outcome Int
  GetFunctionByDecl : M → String → Option Nat
  CreateContext : Bool
  Prepare : M → Nat → Int
  Execute : M → Nat → Outcome Int
  GetExceptionString : Option String
  GetExceptionFunction : Option String
  GetExceptionLineNumber : Int

/-! ## Process state seen by `Run` -/

/-- The fields of `CAngelScriptRunner`; `m_pFilename = none` is a null pointer. -/
structure CAngelScriptRunner where
  m_pFilename : Option String
  m_Args : String
  deriving DecidableEq, Repr

/-- Severity of a log record (`log_info`, `log_error`). -/
inductive Level where
  | info
  | error
  deriving DecidableEq, Repr

/-- One record handed to the logging sink. -/
structure LogLine where
  level : Level
  sys : String
  msg : String
  deriving DecidableEq, Repr

/-- The two statics of `CAngelScriptRunner`. -/
structure Statics where
  s_pActiveRunner : Option CAngelScriptRunner
  s_Cache : Cache

/-- The statics together with what a run makes observable: its log records
and its engine calls, oldest first. -/
structure World extends Statics where
  log : List LogLine
  calls : List EngineCall

/-- The world at the start of a run. -/
def Statics.start (g : Statics) : World := { toStatics := g, log := [], calls := [] }

/-- Record an engine call. -/
def World.call (w : World) (c : EngineCall) : World :=
  { w with calls := w.calls ++ [c] }

/-- `log_info(sys, msg)`. -/
def World.log_info (w : World) (sys msg : String) : World :=
  { w with log := w.log ++ [{ level := Level.info, sys := sys, msg := msg }] }

/-- `log_error(sys, msg)`. -/
def World.log_error (w : World) (sys msg : String) : World :=
  { w with log := w.log ++ [{ level := Level.error, sys := sys, msg := msg }] }

/-- How a block of `Run` ends: it runs to its end with a value, a C++ exception
leaves it, or it dereferences a null pointer. -/
inductive Flow (α : Type) where
  | normal (a : α)
  | raised (e : Exn)
  | nullDeref
  deriving Repr

/-- What the caller of `Run` gets: the returned `Success`, or no defined
behaviour after a null dereference. -/
inductive RunResult where
  | returned (Success : Bool)
  | undefinedBehaviour
  deriving DecidableEq, Repr

/-! ## AddGlobals -/

/-- The registrations of `AddGlobals`, in source order. -/
def AddGlobals.registrations : List Registration :=
  [ Registration.ObjectType "string",
    Registration.ObjectBehaviour "string" "asBEHAVE_CONSTRUCT" "void f()",
    Registration.ObjectBehaviour "string" "asBEHAVE_CONSTRUCT" "void f(const string &in)",
    Registration.ObjectBehaviour "string" "asBEHAVE_DESTRUCT" "void f()",
    Registration.ObjectMethod "string" "string &opAssign(const string &in)",
    Registration.StringFactory "string",
    Registration.GlobalFunction "void print(const string &in)",
    Registration.GlobalFunction "void puts(const string &in)",
    Registration.GlobalFunction "void exec(const string &in)",
    Registration.GlobalFunction "string state(const string &in)",
    Registration.GlobalProperty "string args" ]

/-- Perform registrations in order; return codes are not inspected, an
exception ends the sequence. -/
def AddGlobals.registerAll {M : Type} (E : Env M) : List Registration → World → Outcome Unit × World
  | [], w => (Outcome.ret (), w)
  | r :: rs, w =>
    match E.Register r with
    | Outcome.raise e => (Outcome.raise e, w.call (EngineCall.Register r (Outcome.raise e)))
    | Outcome.ret rc => AddGlobals.registerAll E rs (w.call (EngineCall.Register r (Outcome.ret rc)))

/-- `CAngelScriptRunner::AddGlobals(pEngine)`. -/
def AddGlobals {M : Type} (E : Env M) (w : World) : Outcome Unit × World :=
  AddGlobals.registerAll E AddGlobals.registrations w

/-! ## State queries -/

/-- The client states the `state` query distinguishes (`IClient::EClientState`). -/
inductive EClientState where
  | STATE_OFFLINE
  | STATE_CONNECTING
  | STATE_LOADING
  | STATE_ONLINE
  | STATE_DEMOPLAYBACK
  | STATE_QUITTING
  | STATE_RESTARTING
  deriving DecidableEq, Repr

/-- The fields of `CServerInfo` the queries read; `m_aAddresses0` is
`m_aAddresses[0]`, already as the `NETADDR` it holds. -/
structure CServerInfo where
  m_aMap : String
  m_aAddresses0 : List Nat
  m_MaxClients : Int
  m_aName : String
  m_aCommunityId : String
  deriving DecidableEq, Repr

/-- The single-precision operations the `location` query uses. Their rounding
is that of the target and is not given here. -/
structure FloatOps (F : Type) where
  ofInt : Int → F
  lit0 : F
  lit3 : F
  lit30 : F
  mul : F → F → F
  div : F → F → F
  toInt : F → Int

/-- The live client state the queries read through `Client()`, `GameClient()`
and `g_Config`. `localTeam` is
`m_aClients[m_aLocalIds[g_Config.m_ClDummy]].m_Team`, `ddnetTeam` is
`m_Teams.Team(m_aLocalIds[g_Config.m_ClDummy])`, `GameLayer` is the width and
height of `m_pLayers->GameLayer()` (`none` when null), `ClientServerInfo` is
what `Client()->GetServerInfo` fills in. -/
structure Host (F : Type) where
  float : FloatOps F
  m_aGameType : String
  m_Pvp : Bool
  m_Race : Bool
  m_AllowEyeWheel : Bool
  m_AllowZoom : Bool
  DummyAllowed : Bool
  DummyConnected : Bool
  RconAuthed : Bool
  localTeam : Int
  ddnetTeam : Int
  State : EClientState
  GetCurrentMap : String
  m_ConnectServerInfo : Option CServerInfo
  ServerAddress : List Nat
  net_addr_str : List Nat → String
  m_NumPlayers : Int
  ClientServerInfo : CServerInfo
  GameLayer : Option (Int × Int)
  m_Center : F × F

/-- `CAngelScriptRunner::GetServerInfo()`. -/
def GetServerInfo {F : Type} (H : Host F) : Option CServerInfo :=
  if H.State = EClientState.STATE_ONLINE ∨ H.State = EClientState.STATE_DEMOPLAYBACK then
    some H.ClientServerInfo
  else
    match H.m_ConnectServerInfo with
    | some info => some info
    | none => none

/-- `std::clamp(v, lo, hi)` on `int`. -/
def clamp (v lo hi : Int) : Int :=
  if v < lo then lo else if hi < v then hi else v

/-- The table `s_apLocations`. -/
def s_apLocations : List String := ["NW", "N", "NE", "W", "C", "E", "SW", "S", "SE"]

/-- The index into `s_apLocations` computed by the `location` query (source
lines 262-277). -/
def locationIndex {F : Type} (H : Host F) : Int :=
  let w := match H.GameLayer with
    | some (m_Width, _) => H.float.mul (H.float.ofInt m_Width) H.float.lit30
    | none => H.float.lit0
  let h := match H.GameLayer with
    | some (_, m_Height) => H.float.mul (H.float.ofInt m_Height) H.float.lit30
    | none => H.float.lit0
  let x := H.m_Center.1
  let y := H.m_Center.2
  clamp (H.float.toInt (H.float.mul (H.float.div y h) H.float.lit3)) 0 2 * 3
    + clamp (H.float.toInt (H.float.mul (H.float.div x w) H.float.lit3)) 0 2

/-- The `state` query's text for a client state. -/
def clientStateStr : EClientState → String
  | EClientState.STATE_CONNECTING => "connecting"
  | EClientState.STATE_OFFLINE => "offline"
  | EClientState.STATE_LOADING => "loading"
  | EClientState.STATE_ONLINE => "online"
  | EClientState.STATE_DEMOPLAYBACK => "demo"
  | EClientState.STATE_QUITTING => "quitting"
  | EClientState.STATE_RESTARTING => "restarting"

/-- The text of a `bool` result. -/
def boolStr (b : Bool) : String := if b then "true" else "false"

/-- `CAngelScriptRunner::StateStr(Str)`. `Except.error what` is the thrown
`std::invalid_argument` with its message. -/
def StateStr {F : Type} (H : Host F) (Str : String) : Except String String :=
  if Str = "game_mode" then Except.ok H.m_aGameType
  else if Str = "game_mode_pvp" then Except.ok (boolStr H.m_Pvp)
  else if Str = "game_mode_race" then Except.ok (boolStr H.m_Race)
  else if Str = "eye_wheel_allowed" then Except.ok (boolStr H.m_AllowEyeWheel)
  else if Str = "zoom_allowed" then Except.ok (boolStr H.m_AllowZoom)
  else if Str = "dummy_allowed" then Except.ok (boolStr H.DummyAllowed)
  else if Str = "dummy_connected" then Except.ok (boolStr H.DummyConnected)
  else if Str = "rcon_authed" then Except.ok (boolStr H.RconAuthed)
  else if Str = "team" then Except.ok (toString H.localTeam)
  else if Str = "ddnet_team" then Except.ok (toString H.ddnetTeam)
  else if Str = "map" then
    if H.State = EClientState.STATE_ONLINE ∨ H.State = EClientState.STATE_DEMOPLAYBACK then
      Except.ok H.GetCurrentMap
    else
      match H.m_ConnectServerInfo with
      | some info => Except.ok info.m_aMap
      | none => Except.ok ""
  else if Str = "server_ip" then
    if H.State = EClientState.STATE_ONLINE then
      Except.ok (H.net_addr_str H.ServerAddress)
    else
      match H.m_ConnectServerInfo with
      | some info => Except.ok (H.net_addr_str info.m_aAddresses0)
      | none => Except.ok ""
  else if Str = "players_connected" then Except.ok (toString H.m_NumPlayers)
  else if Str = "players_cap" then
    match GetServerInfo H with
    | none => Except.ok ""
    | some pServerInfo => Except.ok (toString pServerInfo.m_MaxClients)
  else if Str = "server_name" then
    match GetServerInfo H with
    | none => Except.ok ""
    | some pServerInfo => Except.ok pServerInfo.m_aName
  else if Str = "community" then
    match GetServerInfo H with
    | none => Except.ok ""
    | some pServerInfo => Except.ok pServerInfo.m_aCommunityId
  else if Str = "location" then
    if H.m_Race then Except.ok ""
    else Except.ok (s_apLocations.getD (locationIndex H).toNat "")
  else if Str = "state" then Except.ok (clientStateStr H.State)
  else Except.error ("No state with name " ++ Str)

/-- The names `StateStr` has a branch for, in source order. -/
def stateNames : List String :=
  ["game_mode", "game_mode_pvp", "game_mode_race", "eye_wheel_allowed", "zoom_allowed",
   "dummy_allowed", "dummy_connected", "rcon_authed", "team", "ddnet_team", "map",
   "server_ip", "players_connected", "players_cap", "server_name", "community",
   "location", "state"]

/-- `AddGlobals::Local::Trampoline(Str)`, the function registered as
`string state(const string &in)`. `host` is the client state behind the
active runner. There is no handler in it: what `StateStr` throws leaves it. -/
def Trampoline {F : Type} (host : Host F) (s_pActiveRunner : Option CAngelScriptRunner)
    (Str : String) : Except String String :=
  match s_pActiveRunner with
  | some _ => StateStr host Str
  | none => Except.ok ""

/-! ## Run -/

/-- The module name of `Run`: `"mod:"` followed by the file name, with every
slash and backslash replaced by an underscore. -/
def ModName (fname : String) : String :=
  String.mk (("mod:" ++ fname).data.map
    (fun c => if c = '/' ∨ c = Char.ofNat 92 then '_' else c))

/-- The cache lookup of `Run` (source lines 401-419). `pMod` is the module just
created. Yields the module pointer to go on with and `LoadedFromCache`. After a
failed load the pointer is what the engine answers to the second `GetModule`
(line 417), which the source does not check for null. -/
def Run.loadCached {M : Type} (E : Env M) (fname : String) (CurHash : SHA256_DIGEST)
    (pMod : M) (w : World) : Flow (Option M × Bool) × World :=
  match w.s_Cache.find fname with
  | some it =>
    if it.m_Hash = CurHash ∧ ¬ it.m_Bytecode.isEmpty then
      let In : CBytecodeStream :=
        { CBytecodeStream.init with m_pIn := some it.m_Bytecode, m_InSize := it.m_Bytecode.length }
      let w1 := w.call (EngineCall.LoadByteCode it.m_Bytecode (E.LoadByteCode pMod In).code)
      match E.LoadByteCode pMod In with
      | Outcome.raise e => (Flow.raised e, w1)
      | Outcome.ret (rc, m1) =>
        if rc ≥ 0 then
          (Flow.normal (some m1, true),
            w1.log_info "angelscript" ("Loaded bytecode for '" ++ fname ++ "' from cache"))
        else
          (Flow.normal (E.GetModuleAfterDiscard (ModName fname), false),
            (w1.call (EngineCall.DiscardModule (ModName fname))).call
              (EngineCall.GetModule (ModName fname)
                (E.GetModuleAfterDiscard (ModName fname)).isSome))
    else (Flow.normal (some pMod, false), w)
  | none => (Flow.normal (some pMod, false), w)

/-- Saving the bytecode of a built module (source lines 435-443). The stream
writes into the vector of the cache entry itself, so every block the engine
writes is in the cache at once, whatever the call returns. -/
def Run.save {M : Type} (E : Env M) (fname : String) (CurHash : SHA256_DIGEST)
    (m : M) (w : World) : Flow (M × Bool) × World :=
  let c1 := w.s_Cache.set fname { w.s_Cache.index fname with m_Bytecode := [] }
  let Out : CBytecodeStream :=
    { CBytecodeStream.init with m_pOut := some (c1.index fname).m_Bytecode }
  let Out1 := (E.SaveByteCode m).1.foldl (fun S p => (S.Write p).2) Out
  let c2 := c1.set fname { c1.index fname with m_Bytecode := Out1.m_pOut.getD [] }
  let w1 := { w with s_Cache := c2 }.call (EngineCall.SaveByteCode (E.SaveByteCode m).2)
  match (E.SaveByteCode m).2 with
  | Outcome.raise e => (Flow.raised e, w1)
  | Outcome.ret rc =>
    if rc ≥ 0 then
      (Flow.normal (m, true),
        { w1 with s_Cache := c2.set fname { c2.index fname with m_Hash := CurHash } })
    else (Flow.normal (m, true), w1)

/-- Compilation from the source text (source lines 421-444), entered when
`LoadedFromCache` is false. Yields the module and `Success`. -/
def Run.compile {M : Type} (E : Env M) (fname pScript : String) (CurHash : SHA256_DIGEST)
    (pMod : Option M) (w : World) : Flow (M × Bool) × World :=
  match pMod with
  | none => (Flow.nullDeref, w)
  | some m =>
    let w1 := w.call
      (EngineCall.AddScriptSection fname pScript (E.AddScriptSection m fname pScript).code)
    match E.AddScriptSection m fname pScript with
    | Outcome.raise e => (Flow.raised e, w1)
    | Outcome.ret (rc, m1) =>
      if rc < 0 then
        (Flow.normal (m1, false),
          w1.log_error "angelscript" ("AddScriptSection failed for '" ++ fname ++ "'"))
      else
        let w2 := w1.call (EngineCall.Build (E.Build m1).code)
        match E.Build m1 with
        | Outcome.raise e => (Flow.raised e, w2)
        | Outcome.ret (rc2, m2) =>
          if rc2 < 0 then
            (Flow.normal (m2, false),
              w2.log_error "angelscript" ("Build failed for '" ++ fname ++ "'"))
          else Run.save E fname CurHash m2 w2

/-- The candidate entry declarations, in the order they are tried. -/
def Candidates : List String := ["void main()", "void run()", "void tclient()"]

/-- The loop over the candidates (source lines 451-456): the first declaration
the module has ends the loop. -/
def Run.findEntry {M : Type} (E : Env M) (m : M) : List String → World → Option Nat × World
  | [], w => (none, w)
  | Decl :: rest, w =>
    match E.GetFunctionByDecl m Decl with
    | some pFunc => (some pFunc, w.call (EngineCall.GetFunctionByDecl Decl (some pFunc)))
    | none => Run.findEntry E m rest (w.call (EngineCall.GetFunctionByDecl Decl none))

/-- Running the entry function that was found (source lines 464-496): a
context is created, prepared and executed, then released. An exception out of
`Execute` leaves before the release. Yields `Success`. -/
def Run.runEntry {M : Type} (E : Env M) (fname : String) (m : M) (pFunc : Nat) (w : World) :
    Flow Bool × World :=
  let w2 := w.call (EngineCall.CreateContext E.CreateContext)
  if ¬ E.CreateContext then
    (Flow.normal false,
      w2.log_error "angelscript" ("Failed to create context for '" ++ fname ++ "'"))
  else
    let w3 := w2.call (EngineCall.Prepare pFunc (E.Prepare m pFunc))
    if E.Prepare m pFunc < 0 then
      (Flow.normal false,
        (w3.log_error "angelscript" ("Prepare failed for '" ++ fname ++ "'")).call
          EngineCall.Release)
    else
      let w4 := w3.call (EngineCall.Execute pFunc (E.Execute m pFunc))
      match E.Execute m pFunc with
      | Outcome.raise e => (Flow.raised e, w4)
      | Outcome.ret r =>
        if r ≠ asEXECUTION_FINISHED then
          if r = asEXECUTION_EXCEPTION then
            (Flow.normal false,
              (w4.log_error "angelscript"
                ("Exception in '" ++ fname ++ "': " ++
                  E.GetExceptionString.getD "<exception>" ++ " at " ++
                  E.GetExceptionFunction.getD "<fn>" ++ ":" ++
                  toString E.GetExceptionLineNumber)).call EngineCall.Release)
          else
            (Flow.normal false,
              (w4.log_error "angelscript"
                ("Execution failed in '" ++ fname ++ "' (code " ++ toString r ++ ")")).call
                EngineCall.Release)
        else (Flow.normal true, w4.call EngineCall.Release)

/-- Entry resolution and execution (source lines 448-497). Yields `Success`. -/
def Run.execute {M : Type} (E : Env M) (fname : String) (m : M) (w : World) : Flow Bool × World :=
  match Run.findEntry E m Candidates w with
  | (none, w1) =>
    (Flow.normal false,
      w1.log_error "angelscript"
        ("No entry function found in '" ++ fname ++
          "' (expected one of: void main(), void run(), void tclient())"))
  | (some pFunc, w1) => Run.runEntry E fname m pFunc w1

/-- Getting the compiled unit, from the cache or from the source text (source
lines 397-444). Yields the module and `Success`. -/
def Run.obtainUnit {M : Type} (E : Env M) (fname pScript : String) (pMod : M) (w : World) :
    Flow (M × Bool) × World :=
  match Run.loadCached E fname (E.sha256 pScript) pMod w with
  | (Flow.raised e, w1) => (Flow.raised e, w1)
  | (Flow.nullDeref, w1) => (Flow.nullDeref, w1)
  | (Flow.normal (pMod1, true), w1) =>
    match pMod1 with
    | none => (Flow.nullDeref, w1)
    | some m1 => (Flow.normal (m1, true), w1)
  | (Flow.normal (pMod1, false), w1) =>
    Run.compile E fname pScript (E.sha256 pScript) pMod1 w1

/-- The part of the `try` block after a module was obtained (source lines
397-498): the unit is obtained and, if `Success` still holds, its entry
function is run. Yields `Success`. -/
def Run.withModule {M : Type} (E : Env M) (fname pScript : String) (pMod : M) (w : World) :
    Flow Bool × World :=
  match Run.obtainUnit E fname pScript pMod w with
  | (Flow.raised e, w1) => (Flow.raised e, w1)
  | (Flow.nullDeref, w1) => (Flow.nullDeref, w1)
  | (Flow.normal (_, false), w1) => (Flow.normal false, w1)
  | (Flow.normal (m1, true), w1) => Run.execute E fname m1 w1

/-- The last statement of the `try` block (source line 501),
`s_pActiveRunner = nullptr`: it is reached only when nothing was thrown. -/
def Run.leaveTry : Flow Bool × World → Flow Bool × World
  | (Flow.normal Success, w) => (Flow.normal Success, { w with s_pActiveRunner := none })
  | (Flow.raised e, w) => (Flow.raised e, w)
  | (Flow.nullDeref, w) => (Flow.nullDeref, w)

/-- The `try` block of `Run` (source lines 377-502). Its last statement clears
`s_pActiveRunner`; an exception leaves the block before that statement. -/
def Run.tryBlock {M : Type} (E : Env M) (self : CAngelScriptRunner) (fname pScript : String)
    (w : World) : Flow Bool × World :=
  match AddGlobals E { w with s_pActiveRunner := some self } with
  | (Outcome.raise e, w1) => (Flow.raised e, w1)
  | (Outcome.ret _, w1) =>
    let w2 := w1.call (EngineCall.GetModule (ModName fname) (E.GetModule (ModName fname)).isSome)
    match E.GetModule (ModName fname) with
    | none =>
      Run.leaveTry (Flow.normal false, w2.log_error "angelscript" "Failed to create module")
    | some pMod => Run.leaveTry (Run.withModule E fname pScript pMod w2)

/-- What follows the `try` block (source lines 503-516): the two handlers log
and set `Success = false`; then the engine is shut down and `Success` is
returned. -/
def Run.finish (fname : String) : Flow Bool × World → RunResult × World
  | (Flow.normal Success, w1) =>
    (RunResult.returned Success, w1.call EngineCall.ShutDownAndRelease)
  | (Flow.raised (Exn.std what), w1) =>
    (RunResult.returned false,
      (w1.log_error "angelscript" ("Exception in '" ++ fname ++ "': " ++ what)).call
        EngineCall.ShutDownAndRelease)
  | (Flow.raised Exn.other, w1) =>
    (RunResult.returned false,
      (w1.log_error "angelscript" ("Unknown exception in '" ++ fname ++ "'")).call
        EngineCall.ShutDownAndRelease)
  | (Flow.nullDeref, w1) => (RunResult.undefinedBehaviour, w1)

/-- `CAngelScriptRunner::Run()` started with the statics `g`: what the caller
gets, and the statics, log and engine calls of the run afterwards. -/
def Run {M : Type} (E : Env M) (self : CAngelScriptRunner) (g : Statics) : RunResult × World :=
  let w := g.start
  match self.m_pFilename with
  | none => (RunResult.returned false, w)
  | some fname =>
    if fname = "" then (RunResult.returned false, w)
    else
      match E.ReadFileStr fname with
      | none =>
        (RunResult.returned false,
          w.log_error "angelscript" ("Failed to open script '" ++ fname ++ "'"))
      | some pScript =>
        if ¬ E.asCreateScriptEngine then
          (RunResult.returned false, w.log_error "angelscript" "Failed to create script engine")
        else
          Run.finish fname (Run.tryBlock E self fname pScript w)

/-! ## Cache consistency

The invariant on the cache table, with the two notions it is worded in: the
unit built from a source and the complete serialization of a unit. -/

/-- The unit `Run` builds for the path `Key` from the source text `code`: the
new module of that path (the one the first `GetModule` gives) after a
successful `AddScriptSection` and a successful `Build`; `none` when one of
them fails or throws. -/
def Env.unitOf {M : Type} (E : Env M) (Key code : String) : Option M :=
  match E.GetModule (ModName Key) with
  | none => none
  | some m0 =>
    match E.AddScriptSection m0 Key code with
    | Outcome.raise _ => none
    | Outcome.ret (rc, m1) =>
      if rc < 0 then none
      else
        match E.Build m1 with
        | Outcome.raise _ => none
        | Outcome.ret (rc2, m2) => if rc2 < 0 then none else some m2

/-- The complete serialization of a unit: all the bytes `SaveByteCode` writes,
when it returns a code that is not negative; `none` when it fails or throws. -/
def Env.serialization {M : Type} (E : Env M) (m : M) : Option (List Nat) :=
  match (E.SaveByteCode m).2 with
  | Outcome.raise _ => none
  | Outcome.ret rc => if 0 ≤ rc then some (E.SaveByteCode m).1.flatten else none

/-- Cache consistency, stated as an invariant on the table: every entry with a
non-empty image holds the complete serialization of a unit built, for that
path, from a source whose hash is the entry's stored hash. -/
def Cache.consistent {M : Type} (E : Env M) (c : Cache) : Prop :=
  ∀ Key it, c Key = some it → it.m_Bytecode ≠ [] →
    ∃ code m, E.unitOf Key code = some m ∧ it.m_Hash = E.sha256 code ∧
      E.serialization m = some it.m_Bytecode

/-! ## Sample inputs -/

/-- A sample engine over modules numbered by how they came about (0 new, 1
with a section added, 2 built, 3 loaded from an image). The script
`scripts/a.as` exists, every call succeeds, the unit has `void main()` only,
and the saved image is three bytes written in two blocks. The stand-in for the
hash is the list of character codes. -/
def Sample.env : Env Nat :=
  { ReadFileStr := fun p => if p = "scripts/a.as" then some "void main() { }" else none
    sha256 := fun code => code.toList.map Char.toNat
    asCreateScriptEngine := true
    Register := fun _ => Outcome.ret 0
    GetModule := fun _ => some 0
    GetModuleAfterDiscard := fun _ => some 0
    LoadByteCode := fun _ _ => Outcome.ret (0, 3)
    AddScriptSection := fun _ _ _ => Outcome.ret (0, 1)
    Build := fun _ => Outcome.ret (0, 2)
    SaveByteCode := fun _ => ([[1, 2], [3]], Outcome.ret 0)
    GetFunctionByDecl := fun _ d => if d = "void main()" then some 1 else none
    CreateContext := true
    Prepare := fun _ _ => 0
    Execute := fun _ _ => Outcome.ret asEXECUTION_FINISHED
    GetExceptionString := none
    GetExceptionFunction := none
    GetExceptionLineNumber := 0 }

/-- The sample engine with an `Execute` out of which a `std::invalid_argument`
comes, as thrown by `StateStr` for an unknown name. -/
def Sample.throwing : Env Nat :=
  { Sample.env with
    Execute := fun _ _ => Outcome.raise (Exn.std "No state with name bogus_key") }

/-- The sample engine with a `SaveByteCode` that writes one block and then
fails. -/
def Sample.saveFails : Env Nat :=
  { Sample.env with SaveByteCode := fun _ => ([[1, 2]], Outcome.ret asERROR) }

/-- The sample engine with a `LoadByteCode` that fails. -/
def Sample.loadFails : Env Nat :=
  { Sample.env with LoadByteCode := fun m _ => Outcome.ret (asERROR, m) }

/-- The sample engine with a `LoadByteCode` that fails and a null result for
the `GetModule` made after the discard. -/
def Sample.loadFailsNoModule : Env Nat :=
  { Sample.loadFails with GetModuleAfterDiscard := fun _ => none }

/-- The sample engine with a `Build` that fails. -/
def Sample.buildFails : Env Nat :=
  { Sample.env with Build := fun m => Outcome.ret (asERROR, m) }

/-- The sample engine with a unit that has `void run()` and `void tclient()`
but no `void main()`. -/
def Sample.runAndTclient : Env Nat :=
  { Sample.env with
    GetFunctionByDecl := fun _ d =>
      if d = "void run()" then some 2 else if d = "void tclient()" then some 3 else none }

/-- The sample engine with a unit that has none of the three entry functions. -/
def Sample.noEntry : Env Nat :=
  { Sample.env with GetFunctionByDecl := fun _ _ => none }

/-- A runner for `scripts/a.as`. -/
def Sample.runner : CAngelScriptRunner := { m_pFilename := some "scripts/a.as", m_Args := "" }

/-- The statics of a fresh process: no active runner, an empty cache. -/
def Sample.fresh : Statics := { s_pActiveRunner := none, s_Cache := Cache.empty }

/-- Statics whose cache holds an image for `scripts/a.as` made from another
source text. -/
def Sample.stale : Statics :=
  { s_pActiveRunner := none
    s_Cache := Cache.set Cache.empty "scripts/a.as"
      { m_Hash := Sample.env.sha256 "void main() { print(1); }", m_Bytecode := [9, 9] } }

/-- Statics whose cache holds an image for `scripts/a.as` made from the
current source text. -/
def Sample.cached : Statics :=
  { s_pActiveRunner := none
    s_Cache := Cache.set Cache.empty "scripts/a.as"
      { m_Hash := Sample.env.sha256 "void main() { }", m_Bytecode := [1, 2, 3] } }

/-- Stand-in single-precision operations on integers, for sample hosts. -/
def Sample.floatOps : FloatOps Int :=
  { ofInt := fun i => i, lit0 := 0, lit3 := 3, lit30 := 30
    mul := fun a b => a * b, div := fun a b => a / b, toInt := fun a => a }

/-- A sample host: offline, no pending connection, no map. -/
def Sample.host : Host Int :=
  { float := Sample.floatOps
    m_aGameType := "DDraceNetwork"
    m_Pvp := false, m_Race := true, m_AllowEyeWheel := true, m_AllowZoom := true
    DummyAllowed := false, DummyConnected := false, RconAuthed := false
    localTeam := 0, ddnetTeam := 0
    State := EClientState.STATE_OFFLINE
    GetCurrentMap := ""
    m_ConnectServerInfo := none
    ServerAddress := []
    net_addr_str := fun _ => ""
    m_NumPlayers := 0
    ClientServerInfo :=
      { m_aMap := "", m_aAddresses0 := [], m_MaxClients := 0, m_aName := "", m_aCommunityId := "" }
    GameLayer := none
    m_Center := (0, 0) }

/-- A sample engine whose modules are the source text they were built from.
The script `scripts/a.as` holds `code`. Serializing the unit of
`void main() { print(1); }` succeeds with the image `[9, 9]`; serializing any
other unit writes the block `[1, 2]` and then fails. -/
def Sample.picky (code : String) : Env String :=
  { ReadFileStr := fun p => if p = "scripts/a.as" then some code else none
    sha256 := fun text => text.toList.map Char.toNat
    asCreateScriptEngine := true
    Register := fun _ => Outcome.ret 0
    GetModule := fun _ => some ""
    GetModuleAfterDiscard := fun _ => some ""
    LoadByteCode := fun _ _ => Outcome.ret (0, "loaded")
    AddScriptSection := fun _ _ text => Outcome.ret (0, text)
    Build := fun m => Outcome.ret (0, m)
    SaveByteCode := fun m =>
      if m = "void main() { print(1); }" then ([[9, 9]], Outcome.ret 0)
      else ([[1, 2]], Outcome.ret asERROR)
    GetFunctionByDecl := fun _ d => if d = "void main()" then some 1 else none
    CreateContext := true
    Prepare := fun _ _ => 0
    Execute := fun _ _ => Outcome.ret asEXECUTION_FINISHED
    GetExceptionString := none
    GetExceptionFunction := none
    GetExceptionLineNumber := 0 }

/-- The statics after a first run of `scripts/a.as` holding
`void main() { print(1); }`, started in a fresh process. -/
def Sample.afterFirst : Statics :=
  (Run (Sample.picky "void main() { print(1); }") Sample.runner Sample.fresh).2.toStatics

/-- The statics after a second run, the script now holding `void main() { }`. -/
def Sample.afterSecond : Statics :=
  (Run (Sample.picky "void main() { }") Sample.runner Sample.afterFirst).2.toStatics

/-! ## Stage lemmas -/

/-- Registration only appends `Register` calls to the trace; it ends normally
exactly when none of them raised. -/
theorem registerAll_spec {M : Type} (E : Env M) (rs : List Registration) (w : World) :
    ∃ new, (AddGlobals.registerAll E rs w).2 = { w with calls := w.calls ++ new } ∧
      (∀ c ∈ new, ∃ r res, c = EngineCall.Register r res) ∧
      (∀ u, (AddGlobals.registerAll E rs w).1 = Outcome.ret u → ∀ c ∈ new, c.raised = none) ∧
      (∀ e, (AddGlobals.registerAll E rs w).1 = Outcome.raise e → ∃ c ∈ new, c.raised = some e) := by
  induction rs generalizing w with
  | nil => exact ⟨[], by simp [AddGlobals.registerAll]⟩
  | cons r rs ih =>
    unfold AddGlobals.registerAll
    cases hr : E.Register r with
    | raise e =>
      refine ⟨[EngineCall.Register r (Outcome.raise e)], ?_⟩
      simp [World.call, EngineCall.raised]
    | ret rc =>
      obtain ⟨new, h1, h2, h3, h4⟩ := ih (w.call (EngineCall.Register r (Outcome.ret rc)))
      refine ⟨EngineCall.Register r (Outcome.ret rc) :: new, ?_⟩
      simp only [h1]
      refine ⟨by simp [World.call], ?_, ?_, ?_⟩
      · intro c hc
        rcases List.mem_cons.1 hc with rfl | hc
        · exact ⟨_, _, rfl⟩
        · exact h2 c hc
      · intro u hu c hc
        rcases List.mem_cons.1 hc with rfl | hc
        · simp [EngineCall.raised]
        · exact h3 u hu c hc
      · intro e he
        obtain ⟨c, hc, hce⟩ := h4 e he
        exact ⟨c, List.mem_cons_of_mem _ hc, hce⟩

/-- `AddGlobals` only appends `Register` calls to the trace. -/
theorem AddGlobals_spec {M : Type} (E : Env M) (w : World) :
    ∃ new, (AddGlobals E w).2 = { w with calls := w.calls ++ new } ∧
      (∀ c ∈ new, ∃ r res, c = EngineCall.Register r res) ∧
      (∀ u, (AddGlobals E w).1 = Outcome.ret u → ∀ c ∈ new, c.raised = none) ∧
      (∀ e, (AddGlobals E w).1 = Outcome.raise e → ∃ c ∈ new, c.raised = some e) :=
  registerAll_spec E _ w

/-- Running the entry function appends entry-phase calls and log lines only;
`Success` stays true only after an `Execute` that finished. -/
theorem Run.runEntry_spec {M : Type} (E : Env M) (fname : String) (m : M) (pFunc : Nat) (w : World) :
    ∃ L evs, (Run.runEntry E fname m pFunc w).2 = { w with log := w.log ++ L, calls := w.calls ++ evs } ∧
      (Run.runEntry E fname m pFunc w).1 ≠ Flow.nullDeref ∧
      (∀ c ∈ evs, c.phase = Phase.entry) ∧
      (∀ b, (Run.runEntry E fname m pFunc w).1 = Flow.normal b → ∀ c ∈ evs, c.raised = none) ∧
      ((Run.runEntry E fname m pFunc w).1 = Flow.normal true →
        ∀ fn r, EngineCall.Execute fn (Outcome.ret r) ∈ evs → r = asEXECUTION_FINISHED) ∧
      (∀ c ∈ evs, (∃ ok, c = EngineCall.CreateContext ok) ∨ (∃ rc, c = EngineCall.Prepare pFunc rc) ∨
        (∃ res, c = EngineCall.Execute pFunc res) ∨ c = EngineCall.Release) := by
  refine ⟨(Run.runEntry E fname m pFunc w).2.log.drop w.log.length,
    (Run.runEntry E fname m pFunc w).2.calls.drop w.calls.length, ?_⟩
  generalize hr : Run.runEntry E fname m pFunc w = r
  unfold Run.runEntry at hr
  simp only [World.call, World.log_error] at hr
  repeat' split at hr
  all_goals subst hr
  all_goals simp_all [EngineCall.phase, EngineCall.raised]

/-- The candidate loop appends one lookup per candidate tried and yields the
first function found. -/
theorem Run.findEntry_spec {M : Type} (E : Env M) (m : M) (ds : List String) (w : World) :
    ∃ evs, (Run.findEntry E m ds w).2 = { w with calls := w.calls ++ evs } ∧
      (∀ c ∈ evs, ∃ d, d ∈ ds ∧ c = EngineCall.GetFunctionByDecl d (E.GetFunctionByDecl m d)) ∧
      (Run.findEntry E m ds w).1 = ds.findSome? (E.GetFunctionByDecl m) := by
  induction ds generalizing w with
  | nil => exact ⟨[], by simp [Run.findEntry]⟩
  | cons d ds ih =>
    unfold Run.findEntry
    cases hd : E.GetFunctionByDecl m d with
    | some f =>
      exact ⟨[EngineCall.GetFunctionByDecl d (some f)], by simp [World.call, hd]⟩
    | none =>
      obtain ⟨evs, h1, h2, h3⟩ := ih (w.call (EngineCall.GetFunctionByDecl d none))
      refine ⟨EngineCall.GetFunctionByDecl d none :: evs, ?_, ?_, ?_⟩
      · rw [h1]
        simp [World.call]
      · intro c hc
        rcases List.mem_cons.1 hc with rfl | hc
        · exact ⟨d, by simp, by rw [hd]⟩
        · obtain ⟨d', hd', hc'⟩ := h2 c hc
          exact ⟨d', List.mem_cons_of_mem _ hd', hc'⟩
      · simp [h3, hd]

/-- Entry resolution and execution append entry-phase calls and log lines only. -/
theorem Run.execute_spec {M : Type} (E : Env M) (fname : String) (m : M) (w : World) :
    ∃ L evs, (Run.execute E fname m w).2 = { w with log := w.log ++ L, calls := w.calls ++ evs } ∧
      (Run.execute E fname m w).1 ≠ Flow.nullDeref ∧
      (∀ c ∈ evs, c.phase = Phase.entry) ∧
      (∀ b, (Run.execute E fname m w).1 = Flow.normal b → ∀ c ∈ evs, c.raised = none) ∧
      ((Run.execute E fname m w).1 = Flow.normal true →
        ∀ fn r, EngineCall.Execute fn (Outcome.ret r) ∈ evs → r = asEXECUTION_FINISHED) := by
  obtain ⟨evs, h1, h2, -⟩ := Run.findEntry_spec E m Candidates w
  have hph : ∀ c ∈ evs, c.phase = Phase.entry ∧ c.raised = none ∧
      ∀ fn r, c ≠ EngineCall.Execute fn r := by
    intro c hc
    obtain ⟨d, -, rfl⟩ := h2 c hc
    simp [EngineCall.phase, EngineCall.raised]
  unfold Run.execute
  rcases hfe : Run.findEntry E m Candidates w with ⟨pf, w1⟩
  rw [hfe] at h1
  simp only at h1
  subst h1
  cases pf with
  | none =>
    refine ⟨[LogLine.mk Level.error "angelscript"
        ("No entry function found in '" ++ fname ++
          "' (expected one of: void main(), void run(), void tclient())")], evs,
      by simp [World.log_error], by simp, fun c hc => (hph c hc).1,
      fun _ _ c hc => (hph c hc).2.1, fun _ fn r hc => absurd rfl ((hph _ hc).2.2 fn _)⟩
  | some pFunc =>
    simp only
    obtain ⟨L, evs2, g1, g2, g3, g4, g5, -⟩ := Run.runEntry_spec E fname m pFunc
      { w with calls := w.calls ++ evs }
    refine ⟨L, evs ++ evs2, by simp [g1], g2, ?_, ?_, ?_⟩
    · intro c hc
      rcases List.mem_append.1 hc with hc | hc
      · exact (hph c hc).1
      · exact g3 c hc
    · intro b hb c hc
      rcases List.mem_append.1 hc with hc | hc
      · exact (hph c hc).2.1
      · exact g4 b hb c hc
    · intro hb fn r hc
      rcases List.mem_append.1 hc with hc | hc
      · exact absurd rfl ((hph _ hc).2.2 fn _)
      · exact g5 hb fn r hc

/-- Compilation from source: what it appends to the trace and what it does to
the cache. -/
theorem Run.compile_spec {M : Type} (E : Env M) (fname pScript : String) (h : SHA256_DIGEST)
    (m : M) (w : World) :
    ∃ L evs, (Run.compile E fname pScript h (some m) w).2.s_pActiveRunner = w.s_pActiveRunner ∧
      (Run.compile E fname pScript h (some m) w).2.log = w.log ++ L ∧
      (Run.compile E fname pScript h (some m) w).2.calls = w.calls ++ evs ∧
      (Run.compile E fname pScript h (some m) w).1 ≠ Flow.nullDeref ∧
      (∀ c ∈ evs, c.phase = Phase.compile) ∧
      (∀ x, (Run.compile E fname pScript h (some m) w).1 = Flow.normal x → ∀ c ∈ evs, c.raised = none) ∧
      (∃ res, EngineCall.AddScriptSection fname pScript res ∈ evs) ∧
      (∀ n c rc, rc < 0 →
        (EngineCall.AddScriptSection n c (Outcome.ret rc) ∈ evs ∨ EngineCall.Build (Outcome.ret rc) ∈ evs) →
        (∃ m', (Run.compile E fname pScript h (some m) w).1 = Flow.normal (m', false)) ∧
        (Run.compile E fname pScript h (some m) w).2.s_Cache = w.s_Cache) ∧
      (∀ rc, 0 ≤ rc → EngineCall.SaveByteCode (Outcome.ret rc) ∈ evs →
        ∃ e, (Run.compile E fname pScript h (some m) w).2.s_Cache fname = some e ∧ e.m_Hash = h) ∧
      (∀ k, k ≠ fname → (Run.compile E fname pScript h (some m) w).2.s_Cache k = w.s_Cache k) ∧
      (∀ n c rc, 0 ≤ rc → EngineCall.AddScriptSection n c (Outcome.ret rc) ∈ evs →
        ∃ res, EngineCall.Build res ∈ evs) := by
  refine ⟨(Run.compile E fname pScript h (some m) w).2.log.drop w.log.length,
    (Run.compile E fname pScript h (some m) w).2.calls.drop w.calls.length, ?_⟩
  generalize hr : Run.compile E fname pScript h (some m) w = r
  unfold Run.compile at hr
  simp only [Run.save, World.call, World.log_error] at hr
  repeat' split at hr
  all_goals subst hr
  all_goals simp_all [EngineCall.phase, EngineCall.raised, Outcome.code, Cache.set, Cache.index]
  all_goals repeat' (first | omega | intro _ | constructor)

/-- The four ways of getting the compiled unit: no usable cache entry, an
exception while loading, a successful load, a failed load followed by
compilation on whatever the engine gives for the module after the discard. -/
theorem Run.obtainUnit_cases {M : Type} (E : Env M) (fname pScript : String) (pMod : M) (w : World) :
    ((∀ it, w.s_Cache fname = some it → ¬ (it.m_Hash = E.sha256 pScript ∧ it.m_Bytecode ≠ [])) ∧
      Run.obtainUnit E fname pScript pMod w =
        Run.compile E fname pScript (E.sha256 pScript) (some pMod) w) ∨
    (∃ it, w.s_Cache fname = some it ∧ it.m_Hash = E.sha256 pScript ∧ it.m_Bytecode ≠ [] ∧
      ((∃ e, Run.obtainUnit E fname pScript pMod w =
          (Flow.raised e, w.call (EngineCall.LoadByteCode it.m_Bytecode (Outcome.raise e)))) ∨
       (∃ rc m1, 0 ≤ rc ∧ Run.obtainUnit E fname pScript pMod w =
          (Flow.normal (m1, true),
            (w.call (EngineCall.LoadByteCode it.m_Bytecode (Outcome.ret rc))).log_info "angelscript"
              ("Loaded bytecode for '" ++ fname ++ "' from cache"))) ∨
       (∃ rc, rc < 0 ∧ Run.obtainUnit E fname pScript pMod w =
          Run.compile E fname pScript (E.sha256 pScript) (E.GetModuleAfterDiscard (ModName fname))
            (((w.call (EngineCall.LoadByteCode it.m_Bytecode (Outcome.ret rc))).call
              (EngineCall.DiscardModule (ModName fname))).call
              (EngineCall.GetModule (ModName fname)
                (E.GetModuleAfterDiscard (ModName fname)).isSome))))) := by
  unfold Run.obtainUnit Run.loadCached
  simp only [Cache.find]
  cases hfind : w.s_Cache fname with
  | none => left; simp
  | some it =>
    by_cases hit : it.m_Hash = E.sha256 pScript ∧ it.m_Bytecode ≠ []
    · right
      refine ⟨it, rfl, hit.1, hit.2, ?_⟩
      have hit' : it.m_Hash = E.sha256 pScript ∧ ¬ it.m_Bytecode.isEmpty = true := by
        simpa using hit
      simp only [hit', and_self, if_true]
      cases hl : E.LoadByteCode pMod
          { CBytecodeStream.init with m_pIn := some it.m_Bytecode, m_InSize := it.m_Bytecode.length } with
      | raise e => left; exact ⟨e, by simp [Outcome.code]⟩
      | ret p =>
        obtain ⟨rc, m1⟩ := p
        right
        by_cases hrc : 0 ≤ rc
        · left; exact ⟨rc, m1, hrc, by simp [Outcome.code, hrc]⟩
        · right; exact ⟨rc, by omega, by simp [Outcome.code, hrc]⟩
    · left
      have hit' : ¬ (it.m_Hash = E.sha256 pScript ∧ ¬ it.m_Bytecode.isEmpty = true) := by
        simpa using hit
      refine ⟨?_, by simp only [hit', if_false]⟩
      intro it' h'
      cases h'
      exact hit

/-- The flow of registration does not depend on the world. -/
theorem registerAll_flow {M : Type} (E : Env M) (rs : List Registration) (w w' : World) :
    (AddGlobals.registerAll E rs w).1 = (AddGlobals.registerAll E rs w').1 := by
  induction rs generalizing w w' with
  | nil => rfl
  | cons r rs ih =>
    unfold AddGlobals.registerAll
    cases E.Register r with
    | raise e => rfl
    | ret rc => exact ih _ _

/-- The flow of compilation does not depend on the world. -/
theorem Run.compile_flow {M : Type} (E : Env M) (fname pScript : String) (h : SHA256_DIGEST)
    (pMod : Option M) (w w' : World) :
    (Run.compile E fname pScript h pMod w).1 = (Run.compile E fname pScript h pMod w').1 := by
  unfold Run.compile Run.save
  cases pMod with
  | none => rfl
  | some m =>
    simp only
    cases E.AddScriptSection m fname pScript with
    | raise e => rfl
    | ret p =>
      obtain ⟨rc, m1⟩ := p
      simp only
      split
      · rfl
      · cases E.Build m1 with
        | raise e => rfl
        | ret q =>
          obtain ⟨rc2, m2⟩ := q
          simp only
          split
          · rfl
          · cases (E.SaveByteCode m2).2 with
            | raise e => rfl
            | ret rc3 => simp only; split <;> rfl

/-- The flow of running the entry function does not depend on the world. -/
theorem Run.runEntry_flow {M : Type} (E : Env M) (fname : String) (m : M) (pFunc : Nat)
    (w w' : World) :
    (Run.runEntry E fname m pFunc w).1 = (Run.runEntry E fname m pFunc w').1 := by
  unfold Run.runEntry
  simp only
  split
  · rfl
  · split
    · rfl
    · cases E.Execute m pFunc with
      | raise e => rfl
      | ret r => simp only; split <;> [split <;> rfl; rfl]

/-- The flow of entry resolution and execution does not depend on the world. -/
theorem Run.execute_flow {M : Type} (E : Env M) (fname : String) (m : M) (w w' : World) :
    (Run.execute E fname m w).1 = (Run.execute E fname m w').1 := by
  obtain ⟨_, -, -, h1⟩ := Run.findEntry_spec E m Candidates w
  obtain ⟨_, -, -, h2⟩ := Run.findEntry_spec E m Candidates w'
  unfold Run.execute
  rcases hfe : Run.findEntry E m Candidates w with ⟨pf, w1⟩
  rcases hfe' : Run.findEntry E m Candidates w' with ⟨pf', w1'⟩
  rw [hfe] at h1
  rw [hfe'] at h2
  simp only at h1 h2
  rw [← h2] at h1
  subst h1
  cases pf with
  | none => rfl
  | some f => exact Run.runEntry_flow E fname m f _ _

/-- Without a cache entry for the path the unit is compiled from the source. -/
theorem Run.obtainUnit_miss {M : Type} (E : Env M) (fname pScript : String) (pMod : M) (w : World)
    (hnone : w.s_Cache fname = none) :
    Run.obtainUnit E fname pScript pMod w =
      Run.compile E fname pScript (E.sha256 pScript) (some pMod) w := by
  rcases Run.obtainUnit_cases E fname pScript pMod w with ⟨-, h⟩ | ⟨it, hit, -⟩
  · exact h
  · rw [hnone] at hit
    cases hit

/-- Getting the compiled unit: what it appends to the trace and the log, and
what it does to the cache, in each of its ways. The null dereference is
reached only after a failed load for which the engine gave no module again. -/
theorem Run.obtainUnit_spec {M : Type} (E : Env M) (fname pScript : String) (pMod : M) (w : World) :
    ∃ L evs, (Run.obtainUnit E fname pScript pMod w).2.s_pActiveRunner = w.s_pActiveRunner ∧
      (Run.obtainUnit E fname pScript pMod w).2.log = w.log ++ L ∧
      (Run.obtainUnit E fname pScript pMod w).2.calls = w.calls ++ evs ∧
      ((Run.obtainUnit E fname pScript pMod w).1 = Flow.nullDeref →
        E.GetModuleAfterDiscard (ModName fname) = none ∧ L = [] ∧
        (Run.obtainUnit E fname pScript pMod w).2.s_Cache = w.s_Cache ∧
        (∀ c ∈ evs, c.phase = Phase.module ∧ c.raised = none) ∧
        ∃ img rc, rc < 0 ∧ EngineCall.LoadByteCode img (Outcome.ret rc) ∈ evs) ∧
      (∀ c ∈ evs, c.phase = Phase.module ∨ c.phase = Phase.compile) ∧
      (∀ x, (Run.obtainUnit E fname pScript pMod w).1 = Flow.normal x → ∀ c ∈ evs, c.raised = none) ∧
      (∀ n c rc, rc < 0 →
        (EngineCall.AddScriptSection n c (Outcome.ret rc) ∈ evs ∨ EngineCall.Build (Outcome.ret rc) ∈ evs) →
        (∃ m', (Run.obtainUnit E fname pScript pMod w).1 = Flow.normal (m', false)) ∧
        (Run.obtainUnit E fname pScript pMod w).2.s_Cache = w.s_Cache) ∧
      (∀ rc, 0 ≤ rc → EngineCall.SaveByteCode (Outcome.ret rc) ∈ evs →
        ∃ e, (Run.obtainUnit E fname pScript pMod w).2.s_Cache fname = some e ∧
          e.m_Hash = E.sha256 pScript) ∧
      (∀ img res, EngineCall.LoadByteCode img res ∈ evs →
        ∃ it, w.s_Cache fname = some it ∧ it.m_Hash = E.sha256 pScript ∧ it.m_Bytecode ≠ [] ∧
          img = it.m_Bytecode) ∧
      (∀ it, w.s_Cache fname = some it → it.m_Hash = E.sha256 pScript → it.m_Bytecode ≠ [] →
        ∃ res, EngineCall.LoadByteCode it.m_Bytecode res ∈ evs) ∧
      ((∀ img res, EngineCall.LoadByteCode img res ∉ evs) →
        ∃ res, EngineCall.AddScriptSection fname pScript res ∈ evs) ∧
      (∀ img rc, 0 ≤ rc → EngineCall.LoadByteCode img (Outcome.ret rc) ∈ evs →
        (∀ c ∈ evs, c.phase ≠ Phase.compile) ∧
        LogLine.mk Level.info "angelscript" ("Loaded bytecode for '" ++ fname ++ "' from cache") ∈ L ∧
        (Run.obtainUnit E fname pScript pMod w).2.s_Cache = w.s_Cache) ∧
      (∀ img rc, rc < 0 → EngineCall.LoadByteCode img (Outcome.ret rc) ∈ evs →
        EngineCall.DiscardModule (ModName fname) ∈ evs ∧
        EngineCall.GetModule (ModName fname) (E.GetModuleAfterDiscard (ModName fname)).isSome ∈ evs ∧
        (E.GetModuleAfterDiscard (ModName fname) = none →
          (Run.obtainUnit E fname pScript pMod w).1 = Flow.nullDeref) ∧
        ∀ m', E.GetModuleAfterDiscard (ModName fname) = some m' →
          (∃ res, EngineCall.AddScriptSection fname pScript res ∈ evs) ∧
          (∀ rc2, 0 ≤ rc2 → EngineCall.AddScriptSection fname pScript (Outcome.ret rc2) ∈ evs →
            ∃ res, EngineCall.Build res ∈ evs) ∧
          ∀ w2, (Run.obtainUnit E fname pScript pMod w).1 =
            (Run.compile E fname pScript (E.sha256 pScript) (some m') w2).1) := by
  rcases Run.obtainUnit_cases E fname pScript pMod w with
    ⟨hmiss, h⟩ | ⟨it, hit, hh, hb, ⟨e, h⟩ | ⟨rc, m1, hrc, h⟩ | ⟨rc, hrc, h⟩⟩
  · -- no usable entry
    obtain ⟨L, evs, c1, c2, c3, c4, c5, c6, c7, c8, c9, -⟩ :=
      Run.compile_spec E fname pScript (E.sha256 pScript) pMod w
    rw [h]
    have hnl : ∀ img res, EngineCall.LoadByteCode img res ∉ evs := by
      intro img res hmem
      have := c5 _ hmem
      simp [EngineCall.phase] at this
    refine ⟨L, evs, c1, c2, c3, fun hn => absurd hn c4, fun c hc => Or.inr (c5 c hc), c6, c8, c9,
      ?_, ?_, fun _ => c7, ?_, ?_⟩
    · intro img res hmem
      exact absurd hmem (hnl img res)
    · intro it hit hh hb
      exact absurd ⟨hh, hb⟩ (hmiss it hit)
    · intro img rc _ hmem
      exact absurd hmem (hnl img _)
    · intro img rc _ hmem
      exact absurd hmem (hnl img _)
  · -- exception while loading
    rw [h]
    refine ⟨[], [EngineCall.LoadByteCode it.m_Bytecode (Outcome.raise e)], ?_⟩
    simp [World.call, EngineCall.phase, EngineCall.raised, hit, hh, hb]
  · -- loaded
    rw [h]
    refine ⟨[LogLine.mk Level.info "angelscript" ("Loaded bytecode for '" ++ fname ++ "' from cache")],
      [EngineCall.LoadByteCode it.m_Bytecode (Outcome.ret rc)], ?_⟩
    simp [World.call, World.log_info, EngineCall.phase, EngineCall.raised, hit, hh, hb]
    intro rc' hrc' h'
    omega
  · -- failed load
    cases hsec : E.GetModuleAfterDiscard (ModName fname) with
    | none =>
      -- no module again: the null pointer is dereferenced
      rw [hsec] at h
      rw [h]
      refine ⟨[], [EngineCall.LoadByteCode it.m_Bytecode (Outcome.ret rc),
        EngineCall.DiscardModule (ModName fname),
        EngineCall.GetModule (ModName fname) false], ?_⟩
      simp [Run.compile, World.call, EngineCall.phase, EngineCall.raised, hit, hh, hb]
      refine ⟨hrc, ?_⟩
      intro img rc' hrc' _ h'
      omega
    | some m' =>
    -- a module again: compilation from the source
    rw [hsec] at h
    obtain ⟨L, evs, c1, c2, c3, c4, c5, c6, c7, c8, c9, -, c11⟩ :=
      Run.compile_spec E fname pScript (E.sha256 pScript) m'
        (((w.call (EngineCall.LoadByteCode it.m_Bytecode (Outcome.ret rc))).call
          (EngineCall.DiscardModule (ModName fname))).call
          (EngineCall.GetModule (ModName fname) (some m').isSome))
    rw [h]
    have hnl : ∀ img res, EngineCall.LoadByteCode img res ∉ evs := by
      intro img res hmem
      have := c5 _ hmem
      simp [EngineCall.phase] at this
    refine ⟨L, [EngineCall.LoadByteCode it.m_Bytecode (Outcome.ret rc),
        EngineCall.DiscardModule (ModName fname),
        EngineCall.GetModule (ModName fname) (some m').isSome] ++ evs, ?_⟩
    refine ⟨by simpa [World.call] using c1, by simpa [World.call] using c2,
      by simpa [World.call] using c3, fun hn => absurd hn c4, ?_, ?_, ?_, ?_, ?_, ?_, ?_, ?_, ?_⟩
    · intro c hc
      simp only [List.cons_append, List.nil_append, List.mem_cons] at hc
      rcases hc with rfl | rfl | rfl | hc
      · left; rfl
      · left; rfl
      · left; rfl
      · right; exact c5 c hc
    · intro x hx c hc
      simp only [List.cons_append, List.nil_append, List.mem_cons] at hc
      rcases hc with rfl | rfl | rfl | hc
      · rfl
      · rfl
      · rfl
      · exact c6 x hx c hc
    · intro n c rc' hrc' hmem
      have hmem' : EngineCall.AddScriptSection n c (Outcome.ret rc') ∈ evs ∨
          EngineCall.Build (Outcome.ret rc') ∈ evs := by
        simpa using hmem
      obtain ⟨hm, hcache⟩ := c8 n c rc' hrc' hmem'
      exact ⟨hm, by simpa [World.call] using hcache⟩
    · intro rc' hrc' hmem
      exact c9 rc' hrc' (by simpa using hmem)
    · intro img res hmem
      simp only [List.cons_append, List.nil_append, List.mem_cons] at hmem
      rcases hmem with hmem | hmem | hmem | hmem
      · cases hmem
        exact ⟨it, hit, hh, hb, rfl⟩
      · cases hmem
      · cases hmem
      · exact absurd hmem (hnl _ _)
    · intro it' hit' _ _
      rw [hit] at hit'
      cases hit'
      exact ⟨Outcome.ret rc, by simp⟩
    · intro hno
      exact absurd (by simp) (hno it.m_Bytecode (Outcome.ret rc))
    · intro img rc' hrc' hmem
      simp only [List.cons_append, List.nil_append, List.mem_cons] at hmem
      rcases hmem with hmem | hmem | hmem | hmem
      · cases hmem
        omega
      · cases hmem
      · cases hmem
      · exact absurd hmem (hnl _ _)
    · intro img rc' _ _
      refine ⟨by simp, by simp, ?_, ?_⟩
      · intro hn
        cases hn
      intro m'' hm''
      cases hm''
      refine ⟨?_, ?_, fun w2 => Run.compile_flow E fname pScript _ _ _ _⟩
      · obtain ⟨res, hres⟩ := c7
        exact ⟨res, by simp [hres]⟩
      · intro rc2 hrc2 hadd
        obtain ⟨res, hres⟩ := c11 fname pScript rc2 hrc2 (by simpa using hadd)
        exact ⟨res, by simp [hres]⟩

/-- A run that does not get to the `try` block returns false, makes no engine
call and leaves the statics as they were. -/
theorem Run_early {M : Type} (E : Env M) (self : CAngelScriptRunner) (g : Statics)
    (h : ¬ ∃ fname pScript, self.m_pFilename = some fname ∧ fname ≠ "" ∧
      E.ReadFileStr fname = some pScript ∧ E.asCreateScriptEngine = true) :
    (Run E self g).1 = RunResult.returned false ∧ (Run E self g).2.calls = [] ∧
      (Run E self g).2.toStatics = g := by
  unfold Run
  cases hf : self.m_pFilename with
  | none => simp [Statics.start]
  | some fname =>
    simp only
    by_cases hne : fname = ""
    · simp [hne, Statics.start]
    · simp only [hne, if_false]
      cases hr : E.ReadFileStr fname with
      | none => simp [Statics.start, World.log_error]
      | some pScript =>
        simp only
        by_cases he : E.asCreateScriptEngine = true
        · exact absurd ⟨fname, pScript, hf, hne, hr, he⟩ h
        · simp [he, Statics.start, World.log_error]

/-- The three ways through the start of the `try` block: registration raises,
no module is created, or the run goes on with a module. -/
theorem Run_cases {M : Type} (E : Env M) (self : CAngelScriptRunner) (g : Statics)
    (fname pScript : String) (hf : self.m_pFilename = some fname) (hne : fname ≠ "")
    (hr : E.ReadFileStr fname = some pScript) (he : E.asCreateScriptEngine = true) :
    ∃ evsA, (∀ c ∈ evsA, c.phase = Phase.globals) ∧
      ((∃ e, (∃ c ∈ evsA, c.raised = some e) ∧ (∀ w', (AddGlobals E w').1 = Outcome.raise e) ∧
          Run E self g = Run.finish fname (Flow.raised e,
            { s_pActiveRunner := some self, s_Cache := g.s_Cache, log := [], calls := evsA })) ∨
       ((∀ c ∈ evsA, c.raised = none) ∧ E.GetModule (ModName fname) = none ∧
          Run E self g = Run.finish fname (Run.leaveTry (Flow.normal false,
            { s_pActiveRunner := some self, s_Cache := g.s_Cache,
              log := [LogLine.mk Level.error "angelscript" "Failed to create module"],
              calls := evsA ++ [EngineCall.GetModule (ModName fname) false] }))) ∨
       (∃ pMod, (∀ c ∈ evsA, c.raised = none) ∧ E.GetModule (ModName fname) = some pMod ∧
          (∀ w', (AddGlobals E w').1 = Outcome.ret ()) ∧
          Run E self g = Run.finish fname (Run.leaveTry (Run.withModule E fname pScript pMod
            { s_pActiveRunner := some self, s_Cache := g.s_Cache, log := [],
              calls := evsA ++ [EngineCall.GetModule (ModName fname) true] })))) := by
  obtain ⟨evsA, hw, hreg, hclean, hraise⟩ :=
    AddGlobals_spec E { g.start with s_pActiveRunner := some self }
  refine ⟨evsA, ?_, ?_⟩
  · intro c hc
    obtain ⟨r, res, rfl⟩ := hreg c hc
    rfl
  · unfold Run
    simp only [hf, hne, if_false, hr, he, not_true_eq_false]
    unfold Run.tryBlock
    rcases hag : AddGlobals E { g.start with s_pActiveRunner := some self } with ⟨res, w1⟩
    rw [hag] at hw hclean hraise
    simp only at hw hclean hraise
    subst hw
    have hflow : ∀ w', (AddGlobals E w').1 = res := by
      intro w'
      have := registerAll_flow E AddGlobals.registrations w'
        { g.start with s_pActiveRunner := some self }
      unfold AddGlobals at hag ⊢
      rw [this, hag]
    cases res with
    | raise e =>
      left
      exact ⟨e, hraise e rfl, hflow, by simp [Statics.start]⟩
    | ret u =>
      right
      cases hgm : E.GetModule (ModName fname) with
      | none =>
        left
        exact ⟨hclean u rfl, rfl, by simp [Statics.start, World.call, World.log_error]⟩
      | some pMod =>
        right
        exact ⟨pMod, hclean u rfl, rfl, hflow, by simp [Statics.start, World.call]⟩

/-- What the handlers and the teardown make of the end of the `try` block. -/
theorem Run.finish_leave (fname : String) (x : Flow Bool × World) :
    (Run.finish fname (Run.leaveTry x)).2.s_Cache = x.2.s_Cache ∧
    (∃ L, (Run.finish fname (Run.leaveTry x)).2.log = x.2.log ++ L) ∧
    (x.1 ≠ Flow.nullDeref →
      (Run.finish fname (Run.leaveTry x)).2.calls = x.2.calls ++ [EngineCall.ShutDownAndRelease]) ∧
    (∀ b, x.1 = Flow.normal b → (Run.finish fname (Run.leaveTry x)).1 = RunResult.returned b ∧
      (Run.finish fname (Run.leaveTry x)).2.s_pActiveRunner = none) ∧
    (∀ e, x.1 = Flow.raised e → (Run.finish fname (Run.leaveTry x)).1 = RunResult.returned false ∧
      (Run.finish fname (Run.leaveTry x)).2.s_pActiveRunner = x.2.s_pActiveRunner) ∧
    (x.1 = Flow.nullDeref → (Run.finish fname (Run.leaveTry x)).1 = RunResult.undefinedBehaviour) := by
  obtain ⟨fl, w⟩ := x
  cases fl with
  | normal b => simp [Run.finish, Run.leaveTry, World.call]
  | raised e =>
    cases e <;> simp [Run.finish, Run.leaveTry, World.call, World.log_error]
  | nullDeref => simp [Run.finish, Run.leaveTry]

/-- How `withModule` continues from the unit that was obtained. -/
theorem Run.withModule_spec {M : Type} (E : Env M) (fname pScript : String) (pMod : M) (w : World) :
    ∃ LX evsX,
      (Run.withModule E fname pScript pMod w).2.toStatics =
        (Run.obtainUnit E fname pScript pMod w).2.toStatics ∧
      (Run.withModule E fname pScript pMod w).2.log =
        (Run.obtainUnit E fname pScript pMod w).2.log ++ LX ∧
      (Run.withModule E fname pScript pMod w).2.calls =
        (Run.obtainUnit E fname pScript pMod w).2.calls ++ evsX ∧
      (∀ c ∈ evsX, c.phase = Phase.entry) ∧
      ((Run.obtainUnit E fname pScript pMod w).1 ≠ Flow.nullDeref →
        (Run.withModule E fname pScript pMod w).1 ≠ Flow.nullDeref) ∧
      (∀ b, (Run.withModule E fname pScript pMod w).1 = Flow.normal b →
        (∃ x, (Run.obtainUnit E fname pScript pMod w).1 = Flow.normal x) ∧
        ∀ c ∈ evsX, c.raised = none) ∧
      ((Run.withModule E fname pScript pMod w).1 = Flow.normal true →
        ∀ fn r, EngineCall.Execute fn (Outcome.ret r) ∈ evsX → r = asEXECUTION_FINISHED) ∧
      (∀ m, (Run.obtainUnit E fname pScript pMod w).1 = Flow.normal (m, false) →
        (Run.withModule E fname pScript pMod w).1 = Flow.normal false ∧ evsX = [] ∧ LX = []) ∧
      (∀ m, (Run.obtainUnit E fname pScript pMod w).1 = Flow.normal (m, true) →
        Run.withModule E fname pScript pMod w =
          Run.execute E fname m (Run.obtainUnit E fname pScript pMod w).2) ∧
      (∀ e, (Run.obtainUnit E fname pScript pMod w).1 = Flow.raised e → evsX = []) := by
  unfold Run.withModule
  rcases hO : Run.obtainUnit E fname pScript pMod w with ⟨fl, wO⟩
  cases fl with
  | raised e => exact ⟨[], [], by simp⟩
  | nullDeref => exact ⟨[], [], by simp⟩
  | normal x =>
    obtain ⟨m, b⟩ := x
    cases b with
    | false => exact ⟨[], [], by simp⟩
    | true =>
      obtain ⟨L, evs, h1, h2, h3, h4, h5⟩ := Run.execute_spec E fname m wO
      refine ⟨L, evs, by simp [h1], by simp [h1], by simp [h1], h3, fun _ => h2, ?_, h5, by simp,
        by simp, by simp⟩
      intro b hb
      exact ⟨⟨_, rfl⟩, h4 b hb⟩

/-- A null dereference while the unit is obtained ends the run there: nothing
after it is called, logged or stored, and the engine is not shut down. -/
theorem Run.finish_null {M : Type} (E : Env M) (fname pScript : String) (pMod : M) (w : World)
    (h : (Run.obtainUnit E fname pScript pMod w).1 = Flow.nullDeref) :
    Run.finish fname (Run.leaveTry (Run.withModule E fname pScript pMod w)) =
      (RunResult.undefinedBehaviour, (Run.obtainUnit E fname pScript pMod w).2) := by
  unfold Run.withModule
  rcases hO : Run.obtainUnit E fname pScript pMod w with ⟨fl, wO⟩
  rw [hO] at h
  simp only at h
  subst h
  rfl

/-- Under the conditions for reaching the `try` block, a run that does not
return false made only calls that ended without an exception, and every
`Execute` in its trace finished normally. -/
theorem Run_true_clean {M : Type} (E : Env M) (self : CAngelScriptRunner) (g : Statics)
    (fname pScript : String) (hf : self.m_pFilename = some fname) (hne : fname ≠ "")
    (hr : E.ReadFileStr fname = some pScript) (he : E.asCreateScriptEngine = true)
    (hres : (Run E self g).1 ≠ RunResult.returned false) :
    (∀ c ∈ (Run E self g).2.calls, c.raised = none) ∧
    ∀ fn r, EngineCall.Execute fn (Outcome.ret r) ∈ (Run E self g).2.calls →
      r = asEXECUTION_FINISHED := by
  obtain ⟨evsA, hph, h⟩ := Run_cases E self g fname pScript hf hne hr he
  rcases h with ⟨e, -, -, hR⟩ | ⟨-, -, hR⟩ | ⟨pMod, hcl, hgm, -, hR⟩
  · exfalso
    apply hres
    rw [hR]
    cases e <;> simp [Run.finish]
  · exfalso
    apply hres
    rw [hR]
    simp [Run.finish, Run.leaveTry]
  · rw [hR] at hres ⊢
    obtain ⟨LO, evsO, -, -, o3, o4, o5, o6, -⟩ := Run.obtainUnit_spec E fname pScript pMod
      { s_pActiveRunner := some self, s_Cache := g.s_Cache, log := [],
        calls := evsA ++ [EngineCall.GetModule (ModName fname) true] }
    by_cases hO : (Run.obtainUnit E fname pScript pMod
      { s_pActiveRunner := some self, s_Cache := g.s_Cache, log := [],
        calls := evsA ++ [EngineCall.GetModule (ModName fname) true] }).1 = Flow.nullDeref
    · -- the null dereference: registration, the first module, the failed load
      rw [Run.finish_null E fname pScript pMod _ hO]
      simp only
      rw [o3]
      obtain ⟨-, -, -, hmod, -⟩ := o4 hO
      refine ⟨?_, ?_⟩
      · intro c hc
        simp only [List.mem_append, List.mem_singleton] at hc
        rcases hc with ((hc | rfl) | hc)
        · exact hcl c hc
        · rfl
        · exact (hmod c hc).2
      · intro fn r hc
        simp only [List.mem_append, List.mem_singleton] at hc
        rcases hc with ((hc | hc) | hc)
        · have := hph _ hc
          simp [EngineCall.phase] at this
        · cases hc
        · have := (hmod _ hc).1
          simp [EngineCall.phase] at this
    obtain ⟨LX, evsX, -, -, x3, x4, x5, x6, x7, -⟩ := Run.withModule_spec E fname pScript pMod
      { s_pActiveRunner := some self, s_Cache := g.s_Cache, log := [],
        calls := evsA ++ [EngineCall.GetModule (ModName fname) true] }
    obtain ⟨-, -, f3, f4, f5, f6⟩ := Run.finish_leave fname (Run.withModule E fname pScript pMod
      { s_pActiveRunner := some self, s_Cache := g.s_Cache, log := [],
        calls := evsA ++ [EngineCall.GetModule (ModName fname) true] })
    have hnd := x5 hO
    rw [f3 hnd, x3, o3]
    rcases hfl : (Run.withModule E fname pScript pMod
      { s_pActiveRunner := some self, s_Cache := g.s_Cache, log := [],
        calls := evsA ++ [EngineCall.GetModule (ModName fname) true] }).1 with b | e | _
    · rw [(f4 b hfl).1] at hres
      have hb' : b = true := by
        cases b
        · exact absurd rfl hres
        · rfl
      subst hb'
      obtain ⟨⟨x, hx⟩, hclX⟩ := x6 true hfl
      have hclO := o6 x hx
      have hgood := x7 hfl
      refine ⟨?_, ?_⟩
      · intro c hc
        simp only [List.mem_append, List.mem_singleton] at hc
        rcases hc with ((((hc | rfl) | hc) | hc) | rfl)
        · exact hcl c hc
        · rfl
        · exact hclO c hc
        · exact hclX c hc
        · rfl
      · intro fn r hc
        simp only [List.mem_append, List.mem_singleton] at hc
        rcases hc with ((((hc | hc) | hc) | hc) | hc)
        · have := hph _ hc
          simp [EngineCall.phase] at this
        · cases hc
        · have := o5 _ hc
          simp [EngineCall.phase] at this
        · exact hgood fn r hc
        · cases hc
    · exact absurd (f5 e hfl).1 hres
    · exact absurd hfl hnd

/-- A trace that holds a call made after the module was created comes from a
run that reached that point: the run is the rest of the `try` block, the
handlers and the teardown, started after registration and `GetModule`. -/
theorem Run_reaches {M : Type} (E : Env M) (self : CAngelScriptRunner) (g : Statics)
    (c : EngineCall) (hc : c ∈ (Run E self g).2.calls)
    (hph : c.phase ≠ Phase.globals ∧ c.phase ≠ Phase.teardown)
    (hgm : ∀ n, c ≠ EngineCall.GetModule n false) :
    ∃ fname pScript pMod evsA, self.m_pFilename = some fname ∧ fname ≠ "" ∧
      E.ReadFileStr fname = some pScript ∧ E.asCreateScriptEngine = true ∧
      E.GetModule (ModName fname) = some pMod ∧
      (∀ a ∈ evsA, a.phase = Phase.globals ∧ a.raised = none) ∧
      (∀ w', (AddGlobals E w').1 = Outcome.ret ()) ∧
      Run E self g = Run.finish fname (Run.leaveTry (Run.withModule E fname pScript pMod
        { s_pActiveRunner := some self, s_Cache := g.s_Cache, log := [],
          calls := evsA ++ [EngineCall.GetModule (ModName fname) true] })) := by
  by_cases hpre : ∃ fname pScript, self.m_pFilename = some fname ∧ fname ≠ "" ∧
      E.ReadFileStr fname = some pScript ∧ E.asCreateScriptEngine = true
  · obtain ⟨fname, pScript, hf, hne, hr, he⟩ := hpre
    obtain ⟨evsA, hA, h⟩ := Run_cases E self g fname pScript hf hne hr he
    rcases h with ⟨e, -, -, hR⟩ | ⟨-, -, hR⟩ | ⟨pMod, hcl, hgm', hfl, hR⟩
    · exfalso
      rw [hR] at hc
      have hc' : c ∈ evsA ∨ c = EngineCall.ShutDownAndRelease := by
        cases e <;> simpa [Run.finish, World.call, World.log_error] using hc
      rcases hc' with hc' | rfl
      · exact hph.1 (hA c hc')
      · exact hph.2 rfl
    · exfalso
      rw [hR] at hc
      have hc' : c ∈ evsA ∨ c = EngineCall.GetModule (ModName fname) false ∨
          c = EngineCall.ShutDownAndRelease := by
        simpa [Run.finish, Run.leaveTry, World.call, or_assoc] using hc
      rcases hc' with hc' | rfl | rfl
      · exact hph.1 (hA c hc')
      · exact hgm _ rfl
      · exact hph.2 rfl
    · exact ⟨fname, pScript, pMod, evsA, hf, hne, hr, he, hgm', fun a ha => ⟨hA a ha, hcl a ha⟩,
        hfl, hR⟩
  · rw [(Run_early E self g hpre).2.1] at hc
    cases hc

/-- The trace, cache and log of a run that got a module, in terms of the unit
that was obtained: the calls after it are entry-phase calls followed by the
engine shutdown, and none at all after a null dereference. -/
theorem Run.module_frame {M : Type} (E : Env M) (fname pScript : String) (pMod : M) (w : World) :
    ∃ LX evsX evsT,
      (Run.finish fname (Run.leaveTry (Run.withModule E fname pScript pMod w))).2.calls =
        (Run.obtainUnit E fname pScript pMod w).2.calls ++ evsX ++ evsT ∧
      (Run.finish fname (Run.leaveTry (Run.withModule E fname pScript pMod w))).2.s_Cache =
        (Run.obtainUnit E fname pScript pMod w).2.s_Cache ∧
      (∃ L', (Run.finish fname (Run.leaveTry (Run.withModule E fname pScript pMod w))).2.log =
        (Run.obtainUnit E fname pScript pMod w).2.log ++ LX ++ L') ∧
      (∀ c ∈ evsX, c.phase = Phase.entry) ∧
      (∀ m, (Run.obtainUnit E fname pScript pMod w).1 = Flow.normal (m, false) →
        (Run.finish fname (Run.leaveTry (Run.withModule E fname pScript pMod w))).1 =
          RunResult.returned false ∧ evsX = []) ∧
      (∀ m, (Run.obtainUnit E fname pScript pMod w).1 = Flow.normal (m, true) →
        (Run.execute E fname m (Run.obtainUnit E fname pScript pMod w).2).2.calls =
          (Run.obtainUnit E fname pScript pMod w).2.calls ++ evsX ∧
        (Run.execute E fname m (Run.obtainUnit E fname pScript pMod w).2).2.log =
          (Run.obtainUnit E fname pScript pMod w).2.log ++ LX ∧
        ((Run.finish fname (Run.leaveTry (Run.withModule E fname pScript pMod w))).1 =
            RunResult.returned true ↔
          (Run.execute E fname m (Run.obtainUnit E fname pScript pMod w).2).1 = Flow.normal true)) ∧
      (∀ e, (Run.obtainUnit E fname pScript pMod w).1 = Flow.raised e → evsX = []) ∧
      (∀ c ∈ evsT, c = EngineCall.ShutDownAndRelease) ∧
      ((Run.obtainUnit E fname pScript pMod w).1 = Flow.nullDeref →
        (Run.finish fname (Run.leaveTry (Run.withModule E fname pScript pMod w))).1 =
          RunResult.undefinedBehaviour ∧ evsX = [] ∧ evsT = []) ∧
      ((Run.obtainUnit E fname pScript pMod w).1 ≠ Flow.nullDeref →
        evsT = [EngineCall.ShutDownAndRelease] ∧
        ((Run.finish fname (Run.leaveTry (Run.withModule E fname pScript pMod w))).1 =
            RunResult.returned true ∨
          (Run.finish fname (Run.leaveTry (Run.withModule E fname pScript pMod w))).1 =
            RunResult.returned false)) := by
  by_cases hO : (Run.obtainUnit E fname pScript pMod w).1 = Flow.nullDeref
  · have hfn := Run.finish_null E fname pScript pMod w hO
    refine ⟨[], [], [], by rw [hfn]; simp, by rw [hfn], ⟨[], by rw [hfn]; simp⟩, by simp, ?_, ?_, ?_,
      by simp, ?_, ?_⟩
    · intro m hm
      rw [hO] at hm
      cases hm
    · intro m hm
      rw [hO] at hm
      cases hm
    · intro e _
      rfl
    · intro _
      exact ⟨by rw [hfn], rfl, rfl⟩
    · intro hn
      exact absurd hO hn
  obtain ⟨LX, evsX, -, x2, x3, x4, x5, -, -, x8, x9, x10⟩ :=
    Run.withModule_spec E fname pScript pMod w
  obtain ⟨f1, ⟨L', f2⟩, f3, f4, f5, -⟩ :=
    Run.finish_leave fname (Run.withModule E fname pScript pMod w)
  have hnd := x5 hO
  refine ⟨LX, evsX, [EngineCall.ShutDownAndRelease], by rw [f3 hnd, x3], ?_, ⟨L', by rw [f2, x2]⟩,
    x4, ?_, ?_, x10, by simp, fun hn => absurd hn hO, fun _ => ⟨rfl, ?_⟩⟩
  · rw [f1]
    obtain ⟨_, _, h1, -⟩ := Run.withModule_spec E fname pScript pMod w
    rw [h1]
  · intro m hm
    obtain ⟨h1, h2, -⟩ := x8 m hm
    exact ⟨(f4 false h1).1, h2⟩
  · intro m hm
    have hx := x9 m hm
    refine ⟨by rw [← hx, x3], by rw [← hx, x2], ?_⟩
    rw [← hx]
    rcases hfl : (Run.withModule E fname pScript pMod w).1 with b | e | _
    · rw [(f4 b hfl).1]
      simp
    · rw [(f5 e hfl).1]
      simp
    · exact absurd hfl hnd
  · rcases hfl : (Run.withModule E fname pScript pMod w).1 with b | e | _
    · rw [(f4 b hfl).1]
      cases b <;> simp
    · rw [(f5 e hfl).1]
      simp
    · exact absurd hfl hnd

/-- A module-phase or compile-phase call of a run's trace, other than the
first `GetModule`, is one of the calls made while the unit was obtained. -/
theorem Run.mem_unit (evsA evsO evsX evsT : List EngineCall) (n : String) (c : EngineCall)
    (hA : ∀ a ∈ evsA, a.phase = Phase.globals ∧ a.raised = none)
    (hX : ∀ a ∈ evsX, a.phase = Phase.entry)
    (hT : ∀ a ∈ evsT, a = EngineCall.ShutDownAndRelease)
    (hc : c ∈ evsA ++ [EngineCall.GetModule n true] ++ evsO ++ evsX ++ evsT)
    (hph : c.phase = Phase.module ∨ c.phase = Phase.compile)
    (hne : c ≠ EngineCall.GetModule n true) : c ∈ evsO := by
  simp only [List.mem_append, List.mem_singleton] at hc
  rcases hc with ((((h | h) | h) | h) | h)
  · have := (hA _ h).1
    rcases hph with hph | hph <;> rw [hph] at this <;> cases this
  · exact absurd h hne
  · exact h
  · have := hX _ h
    rcases hph with hph | hph <;> rw [hph] at this <;> cases this
  · have := hT _ h
    subst this
    rcases hph with hph | hph <;> cases hph

/-- A run of a known path and source whose trace holds a module-phase or
compile-phase call: its trace, cache and log in terms of the unit that was
obtained after registration and `GetModule`. -/
theorem Run_unit_frame {M : Type} (E : Env M) (self : CAngelScriptRunner) (g : Statics)
    (fname pScript : String) (hf : self.m_pFilename = some fname)
    (hr : E.ReadFileStr fname = some pScript)
    (c : EngineCall) (hc : c ∈ (Run E self g).2.calls)
    (hph : c.phase = Phase.module ∨ c.phase = Phase.compile)
    (hgmf : ∀ n, c ≠ EngineCall.GetModule n false) :
    ∃ pMod evsA evsO evsX evsT LX L',
      E.GetModule (ModName fname) = some pMod ∧
      (∀ a ∈ evsA, a.phase = Phase.globals ∧ a.raised = none) ∧
      (∀ a ∈ evsX, a.phase = Phase.entry) ∧
      (∀ a ∈ evsT, a = EngineCall.ShutDownAndRelease) ∧
      (Run.obtainUnit E fname pScript pMod
        { s_pActiveRunner := some self, s_Cache := g.s_Cache, log := [],
          calls := evsA ++ [EngineCall.GetModule (ModName fname) true] }).2.calls =
        evsA ++ [EngineCall.GetModule (ModName fname) true] ++ evsO ∧
      (Run E self g).2.calls = evsA ++ [EngineCall.GetModule (ModName fname) true] ++ evsO ++
        evsX ++ evsT ∧
      (Run E self g).2.s_Cache = (Run.obtainUnit E fname pScript pMod
        { s_pActiveRunner := some self, s_Cache := g.s_Cache, log := [],
          calls := evsA ++ [EngineCall.GetModule (ModName fname) true] }).2.s_Cache ∧
      (Run E self g).2.log = (Run.obtainUnit E fname pScript pMod
        { s_pActiveRunner := some self, s_Cache := g.s_Cache, log := [],
          calls := evsA ++ [EngineCall.GetModule (ModName fname) true] }).2.log ++ LX ++ L' ∧
      (∀ w', (AddGlobals E w').1 = Outcome.ret ()) ∧
      Run E self g = Run.finish fname (Run.leaveTry (Run.withModule E fname pScript pMod
        { s_pActiveRunner := some self, s_Cache := g.s_Cache, log := [],
          calls := evsA ++ [EngineCall.GetModule (ModName fname) true] })) := by
  obtain ⟨fname', pScript', pMod, evsA, hf', hne, hr', he, hgm, hA, hfl, hR⟩ :=
    Run_reaches E self g c hc (by rcases hph with h | h <;> rw [h] <;> simp) hgmf
  rw [hf] at hf'
  cases hf'
  rw [hr] at hr'
  cases hr'
  obtain ⟨LO, evsO, -, -, o3, -⟩ :=
    Run.obtainUnit_spec E fname pScript pMod
      { s_pActiveRunner := some self, s_Cache := g.s_Cache, log := [],
        calls := evsA ++ [EngineCall.GetModule (ModName fname) true] }
  obtain ⟨LX, evsX, evsT, m1, m2, ⟨L', m3⟩, m4, -, -, -, m8, -⟩ :=
    Run.module_frame E fname pScript pMod
      { s_pActiveRunner := some self, s_Cache := g.s_Cache, log := [],
        calls := evsA ++ [EngineCall.GetModule (ModName fname) true] }
  refine ⟨pMod, evsA, evsO, evsX, evsT, LX, L', hgm, hA, m4, m8, o3, ?_, ?_, ?_, hfl, hR⟩
  · rw [hR, m1, o3]
  · rw [hR, m2]
  · rw [hR, m3]

/-- After a run in which `SaveByteCode` succeeded, the cache entry of the path
holds the hash of the source that was read. -/
theorem Run_saved_hash {M : Type} (E : Env M) (self : CAngelScriptRunner) (g : Statics)
    (fname pScript : String) (hf : self.m_pFilename = some fname)
    (hr : E.ReadFileStr fname = some pScript) (rc : Int) (hrc : 0 ≤ rc)
    (hsave : EngineCall.SaveByteCode (Outcome.ret rc) ∈ (Run E self g).2.calls) :
    ∃ e, (Run E self g).2.s_Cache fname = some e ∧ e.m_Hash = E.sha256 pScript := by
  obtain ⟨pMod, evsA, evsO, evsX, evsT, LX, L', hgm, hA, hX, hT, hO, hcalls, hcache, -⟩ :=
    Run_unit_frame E self g fname pScript hf hr _ hsave (Or.inr rfl) (by intro n hn; cases hn)
  obtain ⟨LO, evs, -, -, o3, -, -, -, -, o8, -⟩ :=
    Run.obtainUnit_spec E fname pScript pMod
      { s_pActiveRunner := some self, s_Cache := g.s_Cache, log := [],
        calls := evsA ++ [EngineCall.GetModule (ModName fname) true] }
  have hev : evs = evsO := List.append_cancel_left (o3.symm.trans hO)
  subst hev
  rw [hcalls] at hsave
  rw [hcache]
  exact o8 rc hrc
    (Run.mem_unit evsA evs evsX evsT _ _ hA hX hT hsave (Or.inr rfl) (by intro hn; cases hn))

/-- The flow of `withModule` is fixed by the flow of obtaining the unit. -/
theorem Run.withModule_flow {M : Type} (E : Env M) (fname pScript : String) (pMod : M)
    (w w' : World)
    (h : (Run.obtainUnit E fname pScript pMod w).1 = (Run.obtainUnit E fname pScript pMod w').1) :
    (Run.withModule E fname pScript pMod w).1 = (Run.withModule E fname pScript pMod w').1 := by
  unfold Run.withModule
  rcases hO : Run.obtainUnit E fname pScript pMod w with ⟨fl, wO⟩
  rcases hO' : Run.obtainUnit E fname pScript pMod w' with ⟨fl', wO'⟩
  rw [hO, hO'] at h
  simp only at h
  subst h
  cases fl with
  | raised e => rfl
  | nullDeref => rfl
  | normal x =>
    obtain ⟨m, b⟩ := x
    cases b with
    | false => rfl
    | true => exact Run.execute_flow E fname m wO wO'

/-- What `Run` returns is fixed by the flow of the `try` block. -/
theorem Run.finish_leave_flow (fname : String) (x y : Flow Bool × World) (h : x.1 = y.1) :
    (Run.finish fname (Run.leaveTry x)).1 = (Run.finish fname (Run.leaveTry y)).1 := by
  obtain ⟨fl, w⟩ := x
  obtain ⟨fl', w'⟩ := y
  simp only at h
  subst h
  cases fl with
  | normal b => rfl
  | raised e => cases e <;> rfl
  | nullDeref => rfl

/-- Entry resolution in detail: the lookups recorded, the function that is
prepared and executed, and the case where no candidate exists. -/
theorem Run.execute_entry {M : Type} (E : Env M) (fname : String) (m : M) (w : World) :
    ∃ L evs, (Run.execute E fname m w).2.log = w.log ++ L ∧
      (Run.execute E fname m w).2.calls = w.calls ++ evs ∧
      (∀ fn, ((∃ rc, EngineCall.Prepare fn rc ∈ evs) ∨ (∃ res, EngineCall.Execute fn res ∈ evs)) →
        EngineCall.GetFunctionByDecl "void main()" (some fn) ∈ evs ∨
        (EngineCall.GetFunctionByDecl "void main()" none ∈ evs ∧
          EngineCall.GetFunctionByDecl "void run()" (some fn) ∈ evs) ∨
        (EngineCall.GetFunctionByDecl "void main()" none ∈ evs ∧
          EngineCall.GetFunctionByDecl "void run()" none ∈ evs ∧
          EngineCall.GetFunctionByDecl "void tclient()" (some fn) ∈ evs)) ∧
      (EngineCall.GetFunctionByDecl "void main()" none ∈ evs →
        EngineCall.GetFunctionByDecl "void run()" none ∈ evs →
        EngineCall.GetFunctionByDecl "void tclient()" none ∈ evs →
        (Run.execute E fname m w).1 = Flow.normal false ∧
        LogLine.mk Level.error "angelscript" ("No entry function found in '" ++ fname ++
          "' (expected one of: void main(), void run(), void tclient())") ∈ L ∧
        ∀ c ∈ evs, (∀ ok, c ≠ EngineCall.CreateContext ok) ∧ (∀ fn rc, c ≠ EngineCall.Prepare fn rc) ∧
          (∀ fn res, c ≠ EngineCall.Execute fn res)) ∧
      (∀ d r, EngineCall.GetFunctionByDecl d r ∈ evs → r = E.GetFunctionByDecl m d) := by
  have hrun : ∀ (pFunc : Nat) (w1 : World),
      ∃ L evs2, (Run.runEntry E fname m pFunc w1).2.log = w1.log ++ L ∧
        (Run.runEntry E fname m pFunc w1).2.calls = w1.calls ++ evs2 ∧
        (∀ d r, EngineCall.GetFunctionByDecl d r ∉ evs2) ∧
        (∀ fn rc, EngineCall.Prepare fn rc ∈ evs2 → fn = pFunc) ∧
        (∀ fn res, EngineCall.Execute fn res ∈ evs2 → fn = pFunc) := by
    intro pFunc w1
    obtain ⟨L, evs2, g1, -, -, -, -, g6⟩ := Run.runEntry_spec E fname m pFunc w1
    refine ⟨L, evs2, ?_, ?_, ?_, ?_, ?_⟩
    · rw [g1]
    · rw [g1]
    · intro d r hmem
      rcases g6 _ hmem with ⟨_, hh⟩ | ⟨_, hh⟩ | ⟨_, hh⟩ | hh <;> cases hh
    · intro fn rc hmem
      rcases g6 _ hmem with ⟨_, hh⟩ | ⟨_, hh⟩ | ⟨_, hh⟩ | hh <;> cases hh
      rfl
    · intro fn res hmem
      rcases g6 _ hmem with ⟨_, hh⟩ | ⟨_, hh⟩ | ⟨_, hh⟩ | hh <;> cases hh
      rfl
  unfold Run.execute
  simp only [Run.findEntry, Candidates, World.call]
  cases h1 : E.GetFunctionByDecl m "void main()" with
  | some f =>
    simp only
    obtain ⟨L, evs2, r1, r2, n1, n2, n3⟩ :=
      hrun f (w.call (EngineCall.GetFunctionByDecl "void main()" (some f)))
    simp only [World.call] at r1 r2
    refine ⟨L, [EngineCall.GetFunctionByDecl "void main()" (some f)] ++ evs2, r1,
      r2.trans (by simp), ?_, ?_, ?_⟩
    · rintro fn (⟨rc, hmem⟩ | ⟨res, hmem⟩)
      · have hfn : fn = f := n2 fn rc (by simpa using hmem)
        subst hfn
        simp
      · have hfn : fn = f := n3 fn res (by simpa using hmem)
        subst hfn
        simp
    · intro hmem
      simp [n1] at hmem
    · intro d r hmem
      simp only [List.singleton_append, List.mem_cons, n1, or_false] at hmem
      cases hmem
      exact h1.symm
  | none =>
    simp only
    cases h2 : E.GetFunctionByDecl m "void run()" with
    | some f =>
      simp only
      obtain ⟨L, evs2, r1, r2, n1, n2, n3⟩ :=
        hrun f ((w.call (EngineCall.GetFunctionByDecl "void main()" none)).call
          (EngineCall.GetFunctionByDecl "void run()" (some f)))
      simp only [World.call] at r1 r2
      refine ⟨L, [EngineCall.GetFunctionByDecl "void main()" none,
          EngineCall.GetFunctionByDecl "void run()" (some f)] ++ evs2, r1,
        r2.trans (by simp), ?_, ?_, ?_⟩
      · rintro fn (⟨rc, hmem⟩ | ⟨res, hmem⟩)
        · have hfn : fn = f := n2 fn rc (by simpa using hmem)
          subst hfn
          simp
        · have hfn : fn = f := n3 fn res (by simpa using hmem)
          subst hfn
          simp
      · intro _ hmem
        simp [n1] at hmem
      · intro d r hmem
        simp only [List.cons_append, List.nil_append, List.mem_cons, n1, or_false] at hmem
        rcases hmem with hmem | hmem
        · cases hmem
          exact h1.symm
        · cases hmem
          exact h2.symm
    | none =>
      simp only
      cases h3 : E.GetFunctionByDecl m "void tclient()" with
      | some f =>
        simp only
        obtain ⟨L, evs2, r1, r2, n1, n2, n3⟩ :=
          hrun f (((w.call (EngineCall.GetFunctionByDecl "void main()" none)).call
            (EngineCall.GetFunctionByDecl "void run()" none)).call
            (EngineCall.GetFunctionByDecl "void tclient()" (some f)))
        simp only [World.call] at r1 r2
        refine ⟨L, [EngineCall.GetFunctionByDecl "void main()" none,
            EngineCall.GetFunctionByDecl "void run()" none,
            EngineCall.GetFunctionByDecl "void tclient()" (some f)] ++ evs2, r1,
          r2.trans (by simp), ?_, ?_, ?_⟩
        · rintro fn (⟨rc, hmem⟩ | ⟨res, hmem⟩)
          · have hfn : fn = f := n2 fn rc (by simpa using hmem)
            subst hfn
            simp
          · have hfn : fn = f := n3 fn res (by simpa using hmem)
            subst hfn
            simp
        · intro _ _ hmem
          simp [n1] at hmem
        · intro d r hmem
          simp only [List.cons_append, List.nil_append, List.mem_cons, n1, or_false] at hmem
          rcases hmem with hmem | hmem | hmem
          · cases hmem
            exact h1.symm
          · cases hmem
            exact h2.symm
          · cases hmem
            exact h3.symm
      | none =>
        simp only
        refine ⟨[LogLine.mk Level.error "angelscript" ("No entry function found in '" ++ fname ++
          "' (expected one of: void main(), void run(), void tclient())")],
          [EngineCall.GetFunctionByDecl "void main()" none,
            EngineCall.GetFunctionByDecl "void run()" none,
            EngineCall.GetFunctionByDecl "void tclient()" none], ?_⟩
        refine ⟨by simp [World.log_error], by simp [World.log_error], ?_, ?_, ?_⟩
        · rintro fn (⟨rc, hmem⟩ | ⟨res, hmem⟩) <;> simp at hmem
        · intro _ _ _
          simp
        · intro d r hmem
          simp only [List.mem_cons, List.mem_singleton, List.not_mem_nil, or_false] at hmem
          rcases hmem with hmem | hmem | hmem
          · cases hmem
            exact h1.symm
          · cases hmem
            exact h2.symm
          · cases hmem
            exact h3.symm

/-- A run whose trace holds an entry-phase call: its trace and log are those of
entry resolution and execution on the unit obtained, followed by the
teardown, and it returns true exactly when that stage ends with `Success`. -/
theorem Run_entry_frame {M : Type} (E : Env M) (self : CAngelScriptRunner) (g : Statics)
    (c : EngineCall) (hc : c ∈ (Run E self g).2.calls) (hph : c.phase = Phase.entry) :
    ∃ fname m w1 L', self.m_pFilename = some fname ∧
      (∀ a ∈ w1.calls, a.phase ≠ Phase.entry) ∧
      (Run E self g).2.calls = (Run.execute E fname m w1).2.calls ++ [EngineCall.ShutDownAndRelease] ∧
      (Run E self g).2.log = (Run.execute E fname m w1).2.log ++ L' ∧
      ((Run E self g).1 = RunResult.returned true ↔
        (Run.execute E fname m w1).1 = Flow.normal true) ∧
      ((Run E self g).1 = RunResult.returned true ∨ (Run E self g).1 = RunResult.returned false) := by
  obtain ⟨fname, pScript, pMod, evsA, hf, hne, hr, he, hgm, hA, -, hR⟩ :=
    Run_reaches E self g c hc (by rw [hph]; simp) (by intro n hn; subst hn; cases hph)
  obtain ⟨LO, evsO, -, -, o3, -, o5, -⟩ :=
    Run.obtainUnit_spec E fname pScript pMod
      { s_pActiveRunner := some self, s_Cache := g.s_Cache, log := [],
        calls := evsA ++ [EngineCall.GetModule (ModName fname) true] }
  obtain ⟨LX, evsX, evsT, m1, -, ⟨L', m3⟩, m4, m5, m6, m7, m8, m9, m10⟩ :=
    Run.module_frame E fname pScript pMod
      { s_pActiveRunner := some self, s_Cache := g.s_Cache, log := [],
        calls := evsA ++ [EngineCall.GetModule (ModName fname) true] }
  have hOph : ∀ a ∈ (Run.obtainUnit E fname pScript pMod
      { s_pActiveRunner := some self, s_Cache := g.s_Cache, log := [],
        calls := evsA ++ [EngineCall.GetModule (ModName fname) true] }).2.calls,
      a.phase ≠ Phase.entry := by
    intro a ha
    rw [o3] at ha
    simp only [List.mem_append, List.mem_singleton] at ha
    rcases ha with (ha | rfl) | ha
    · rw [(hA a ha).1]
      simp
    · simp [EngineCall.phase]
    · rcases o5 a ha with h | h <;> rw [h] <;> simp
  have hcX : c ∈ evsX := by
    rw [hR, m1] at hc
    simp only [List.mem_append, List.mem_singleton] at hc
    rcases hc with (hc | hc) | hc
    · exact absurd hph (hOph c hc)
    · exact hc
    · have := m8 c hc
      subst this
      cases hph
  rcases hO : (Run.obtainUnit E fname pScript pMod
      { s_pActiveRunner := some self, s_Cache := g.s_Cache, log := [],
        calls := evsA ++ [EngineCall.GetModule (ModName fname) true] }).1 with x | e | _
  · obtain ⟨m, b⟩ := x
    cases b with
    | false =>
      have := (m5 m hO).2
      rw [this] at hcX
      cases hcX
    | true =>
      obtain ⟨e1, e2, e3⟩ := m6 m hO
      obtain ⟨hT, hres⟩ := m10 (by rw [hO]; simp)
      refine ⟨fname, m, _, L', hf, hOph, ?_, ?_, ?_, ?_⟩
      · rw [hR, m1, e1, hT]
      · rw [hR, m3, e2]
      · rw [hR]
        exact e3
      · rw [hR]
        exact hres
  · have := m7 e hO
    rw [this] at hcX
    cases hcX
  · have := (m9 hO).2.1
    rw [this] at hcX
    cases hcX

/-! ## What a run does to the cache -/

/-- Writing blocks one after the other through a write-mode stream appends
them all to the vector it points to. -/
theorem CBytecodeStream.foldl_Write (blocks : List (List Nat)) (S : CBytecodeStream)
    (out : List Nat) (h : S.m_pOut = some out) :
    (blocks.foldl (fun S p => (S.Write p).2) S).m_pOut = some (out ++ blocks.flatten) := by
  induction blocks generalizing S out with
  | nil => simpa using h
  | cons b bs ih =>
    simp only [List.foldl_cons, List.flatten_cons]
    rw [ih (S.Write b).2 (out ++ b) (by simp [CBytecodeStream.Write, h])]
    simp

/-- The cache after `Run.save`: the entry of the path holds all the bytes the
engine wrote, with the hash of the source when `SaveByteCode` returned a code
that is not negative and with the hash it had before otherwise. -/
theorem Run.save_cache {M : Type} (E : Env M) (fname : String) (h : SHA256_DIGEST) (m : M)
    (w : World) :
    (Run.save E fname h m w).2.s_Cache = w.s_Cache.set fname
      { m_Hash := match (E.SaveByteCode m).2 with
          | Outcome.ret rc => if 0 ≤ rc then h else (w.s_Cache.index fname).m_Hash
          | Outcome.raise _ => (w.s_Cache.index fname).m_Hash
        m_Bytecode := (E.SaveByteCode m).1.flatten } := by
  have hw := CBytecodeStream.foldl_Write (E.SaveByteCode m).1
    { CBytecodeStream.init with m_pOut := some [] } [] rfl
  unfold Run.save
  simp only [Cache.set, Cache.index, Function.update_same, World.call, hw, List.nil_append,
    Option.getD_some, Function.update_idem]
  cases (E.SaveByteCode m).2 with
  | raise e => simp
  | ret rc =>
    by_cases hrc : 0 ≤ rc
    · simp [hrc]
    · simp [hrc]

/-- `Run.save` records exactly one call, the `SaveByteCode`. -/
theorem Run.save_calls {M : Type} (E : Env M) (fname : String) (h : SHA256_DIGEST) (m : M)
    (w : World) :
    (Run.save E fname h m w).2.calls = w.calls ++ [EngineCall.SaveByteCode (E.SaveByteCode m).2] := by
  unfold Run.save
  simp only [World.call]
  cases (E.SaveByteCode m).2 with
  | raise e => rfl
  | ret rc => simp only; split <;> rfl

/-- The cache after compilation from source: untouched, or, once the unit of
the path and source is built, the entry written by the save. -/
theorem Run.compile_cache {M : Type} (E : Env M) (fname pScript : String) (h : SHA256_DIGEST)
    (m0 : M) (w : World) (hgm : E.GetModule (ModName fname) = some m0) :
    (Run.compile E fname pScript h (some m0) w).2.s_Cache = w.s_Cache ∨
    ∃ m2, E.unitOf fname pScript = some m2 ∧
      EngineCall.SaveByteCode (E.SaveByteCode m2).2 ∈
        (Run.compile E fname pScript h (some m0) w).2.calls ∧
      (Run.compile E fname pScript h (some m0) w).2.s_Cache = w.s_Cache.set fname
        { m_Hash := match (E.SaveByteCode m2).2 with
            | Outcome.ret rc => if 0 ≤ rc then h else (w.s_Cache.index fname).m_Hash
            | Outcome.raise _ => (w.s_Cache.index fname).m_Hash
          m_Bytecode := (E.SaveByteCode m2).1.flatten } := by
  unfold Run.compile
  simp only
  cases ha : E.AddScriptSection m0 fname pScript with
  | raise e => left; rfl
  | ret p =>
    obtain ⟨rc1, m1⟩ := p
    simp only
    by_cases h1 : rc1 < 0
    · left
      simp [h1, World.call, World.log_error]
    · simp only [h1, if_false]
      cases hb : E.Build m1 with
      | raise e => left; rfl
      | ret q =>
        obtain ⟨rc2, m2⟩ := q
        simp only
        by_cases h2 : rc2 < 0
        · left
          simp [h2, World.call, World.log_error]
        · simp only [h2, if_false]
          right
          refine ⟨m2, ?_, ?_, ?_⟩
          · simp [Env.unitOf, hgm, ha, hb, h1, h2]
          · rw [Run.save_calls]
            simp
          · rw [Run.save_cache]
            rfl

/-- The cache after the unit was obtained, for an engine that gives the same
new module again after a discard: untouched, or the entry written by the save
of the unit built for the path from the source. -/
theorem Run.obtainUnit_cache {M : Type} (E : Env M) (fname pScript : String) (pMod : M)
    (w : World) (hgm : E.GetModule (ModName fname) = some pMod)
    (hagain : ∀ n, E.GetModuleAfterDiscard n = E.GetModule n) :
    (Run.obtainUnit E fname pScript pMod w).2.s_Cache = w.s_Cache ∨
    ∃ m2, E.unitOf fname pScript = some m2 ∧
      EngineCall.SaveByteCode (E.SaveByteCode m2).2 ∈
        (Run.obtainUnit E fname pScript pMod w).2.calls ∧
      (Run.obtainUnit E fname pScript pMod w).2.s_Cache = w.s_Cache.set fname
        { m_Hash := match (E.SaveByteCode m2).2 with
            | Outcome.ret rc =>
              if 0 ≤ rc then E.sha256 pScript else (w.s_Cache.index fname).m_Hash
            | Outcome.raise _ => (w.s_Cache.index fname).m_Hash
          m_Bytecode := (E.SaveByteCode m2).1.flatten } := by
  rcases Run.obtainUnit_cases E fname pScript pMod w with
    ⟨-, h⟩ | ⟨it, -, -, -, ⟨e, h⟩ | ⟨rc, m1, -, h⟩ | ⟨rc, -, h⟩⟩
  · rw [h]
    exact Run.compile_cache E fname pScript _ pMod w hgm
  · left
    rw [h]
    rfl
  · left
    rw [h]
    rfl
  · rw [h, hagain, hgm]
    exact Run.compile_cache E fname pScript _ pMod _ hgm

/-- What a run does to the cache, for an engine that gives the same new module
again after a discard: nothing, or it rewrites the entry of its path with all
the bytes `SaveByteCode` wrote for the unit built from the source, setting the
hash of the source only when `SaveByteCode` returned a code that is not
negative. -/
theorem Run_cache {M : Type} (E : Env M) (self : CAngelScriptRunner) (g : Statics)
    (hagain : ∀ n, E.GetModuleAfterDiscard n = E.GetModule n) :
    (Run E self g).2.s_Cache = g.s_Cache ∨
    ∃ fname pScript m2, self.m_pFilename = some fname ∧ E.ReadFileStr fname = some pScript ∧
      E.unitOf fname pScript = some m2 ∧
      EngineCall.SaveByteCode (E.SaveByteCode m2).2 ∈ (Run E self g).2.calls ∧
      (Run E self g).2.s_Cache = g.s_Cache.set fname
        { m_Hash := match (E.SaveByteCode m2).2 with
            | Outcome.ret rc =>
              if 0 ≤ rc then E.sha256 pScript else (g.s_Cache.index fname).m_Hash
            | Outcome.raise _ => (g.s_Cache.index fname).m_Hash
          m_Bytecode := (E.SaveByteCode m2).1.flatten } := by
  by_cases hpre : ∃ fname pScript, self.m_pFilename = some fname ∧ fname ≠ "" ∧
      E.ReadFileStr fname = some pScript ∧ E.asCreateScriptEngine = true
  · obtain ⟨fname, pScript, hf, hne, hr, he⟩ := hpre
    obtain ⟨evsA, -, hcase⟩ := Run_cases E self g fname pScript hf hne hr he
    rcases hcase with ⟨e, -, -, hR⟩ | ⟨-, -, hR⟩ | ⟨pMod, -, hgm, -, hR⟩
    · left
      rw [hR]
      cases e <;> rfl
    · left
      rw [hR]
      rfl
    · obtain ⟨LX, evsX, evsT, m1, m2, -⟩ := Run.module_frame E fname pScript pMod
        (World.mk (Statics.mk (some self) g.s_Cache) []
          (evsA ++ [EngineCall.GetModule (ModName fname) true]))
      rcases Run.obtainUnit_cache E fname pScript pMod
        (World.mk (Statics.mk (some self) g.s_Cache) []
          (evsA ++ [EngineCall.GetModule (ModName fname) true])) hgm hagain with
        hc | ⟨u, hu, hmem, hc⟩
      · left
        rw [hR, m2, hc]
      · right
        refine ⟨fname, pScript, u, hf, hr, hu, ?_, ?_⟩
        · rw [hR, m1]
          simp [hmem]
        · rw [hR, m2, hc]
  · left
    have h := (Run_early E self g hpre).2.2
    exact congrArg Statics.s_Cache h

/-- Cache consistency is kept by every run in which no `SaveByteCode` failed or
threw, for an engine that gives the same new module again after a discard. -/
theorem Run_consistent_of_saved {M : Type} (E : Env M) (self : CAngelScriptRunner) (g : Statics)
    (hagain : ∀ n, E.GetModuleAfterDiscard n = E.GetModule n)
    (hc : Cache.consistent E g.s_Cache)
    (hs : ∀ res, EngineCall.SaveByteCode res ∈ (Run E self g).2.calls →
      ∃ rc, res = Outcome.ret rc ∧ 0 ≤ rc) :
    Cache.consistent E (Run E self g).2.s_Cache := by
  rcases Run_cache E self g hagain with h | ⟨fname, pScript, m2, -, -, hu, hmem, h⟩
  · rw [h]
    exact hc
  · obtain ⟨rc, hres, hrc⟩ := hs _ hmem
    rw [h]
    intro Key it hk hne
    by_cases hkey : Key = fname
    · subst hkey
      simp only [Cache.set, Function.update_same, Option.some.injEq] at hk
      subst hk
      refine ⟨pScript, m2, hu, ?_, ?_⟩
      · simp [hres, hrc]
      · simp [Env.serialization, hres, hrc]
    · simp only [Cache.set, Function.update_noteq hkey] at hk
      exact hc Key it hk hne

/-! ## The fallback after a failed load -/

/-- A run in which `LoadByteCode` returned a negative code: the entry had passed
the hash and non-empty checks, the module is discarded and the engine is asked
for it again. Without a module the null pointer is dereferenced and nothing is
compiled; with one, the source text is added and, once that succeeded, built;
and when it is the module the run first got, the run returns what a run of the
same path and source returns when the cache has no entry for the path. -/
theorem Run_load_failure_recompiles {M : Type} (E : Env M) (self : CAngelScriptRunner)
    (g : Statics) (img : List Nat) (rc : Int) (hrc : rc < 0)
    (h : EngineCall.LoadByteCode img (Outcome.ret rc) ∈ (Run E self g).2.calls) :
    ∃ fname pScript it, self.m_pFilename = some fname ∧ E.ReadFileStr fname = some pScript ∧
      g.s_Cache fname = some it ∧ it.m_Hash = E.sha256 pScript ∧ it.m_Bytecode ≠ [] ∧
      img = it.m_Bytecode ∧
      EngineCall.DiscardModule (ModName fname) ∈ (Run E self g).2.calls ∧
      EngineCall.GetModule (ModName fname) (E.GetModuleAfterDiscard (ModName fname)).isSome ∈
        (Run E self g).2.calls ∧
      (E.GetModuleAfterDiscard (ModName fname) = none →
        (Run E self g).1 = RunResult.undefinedBehaviour ∧
        ∀ c ∈ (Run E self g).2.calls, c.phase ≠ Phase.compile) ∧
      (E.GetModuleAfterDiscard (ModName fname) ≠ none →
        (∃ res, EngineCall.AddScriptSection fname pScript res ∈ (Run E self g).2.calls) ∧
        ∀ rc2, 0 ≤ rc2 →
          EngineCall.AddScriptSection fname pScript (Outcome.ret rc2) ∈ (Run E self g).2.calls →
          ∃ res, EngineCall.Build res ∈ (Run E self g).2.calls) ∧
      (E.GetModuleAfterDiscard (ModName fname) = E.GetModule (ModName fname) →
        ∀ g' : Statics, g'.s_Cache fname = none → (Run E self g).1 = (Run E self g').1) := by
  obtain ⟨fname, pScript, pMod, evsA, hf, hne, hr, he, hgm, hA, hfl, hR⟩ :=
    Run_reaches E self g _ h (by simp [EngineCall.phase]) (by intro n hn; cases hn)
  obtain ⟨LO, evs, -, -, o3, o4, -, -, -, -, o9, -, -, -, o13⟩ :=
    Run.obtainUnit_spec E fname pScript pMod
      { s_pActiveRunner := some self, s_Cache := g.s_Cache, log := [],
        calls := evsA ++ [EngineCall.GetModule (ModName fname) true] }
  obtain ⟨LX, evsX, evsT, m1, -, -, m4, -, -, -, m8, m9, -⟩ := Run.module_frame E fname pScript pMod
    { s_pActiveRunner := some self, s_Cache := g.s_Cache, log := [],
      calls := evsA ++ [EngineCall.GetModule (ModName fname) true] }
  have hcalls : (Run E self g).2.calls =
      evsA ++ [EngineCall.GetModule (ModName fname) true] ++ evs ++ evsX ++ evsT := by
    rw [hR, m1, o3]
  have hin : EngineCall.LoadByteCode img (Outcome.ret rc) ∈ evs := by
    rw [hcalls] at h
    exact Run.mem_unit evsA evs evsX evsT _ _ hA m4 m8 h (Or.inl rfl) (by intro hn; cases hn)
  obtain ⟨it, hit, hh, hb, himg⟩ := o9 img _ hin
  obtain ⟨hdisc, hagain, hnull, hmod⟩ := o13 img rc hrc hin
  refine ⟨fname, pScript, it, hf, hr, hit, hh, hb, himg, ?_, ?_, ?_, ?_, ?_⟩
  · rw [hcalls]
    simp [hdisc]
  · rw [hcalls]
    simp [hagain]
  · intro hnone
    have hO := hnull hnone
    obtain ⟨hub, hX, hT⟩ := m9 hO
    obtain ⟨-, -, -, hmodule, -⟩ := o4 hO
    refine ⟨by rw [hR]; exact hub, ?_⟩
    rw [hcalls, hX, hT]
    intro c hc
    simp only [List.mem_append, List.mem_singleton, List.append_nil] at hc
    rcases hc with ((hc | rfl) | hc)
    · rw [(hA c hc).1]
      simp
    · simp [EngineCall.phase]
    · rw [(hmodule c hc).1]
      simp
  · intro hsome
    cases hsec : E.GetModuleAfterDiscard (ModName fname) with
    | none => exact absurd hsec hsome
    | some m' =>
      obtain ⟨⟨res, hres⟩, hbuild, -⟩ := hmod m' hsec
      refine ⟨⟨res, by rw [hcalls]; simp [hres]⟩, ?_⟩
      intro rc2 hrc2 hadd
      rw [hcalls] at hadd
      obtain ⟨res2, hres2⟩ := hbuild rc2 hrc2
        (Run.mem_unit evsA evs evsX evsT _ _ hA m4 m8 hadd (Or.inr rfl) (by intro hn; cases hn))
      exact ⟨res2, by rw [hcalls]; simp [hres2]⟩
  · intro hsame g' hg'
    obtain ⟨-, -, hflow⟩ := hmod pMod (hsame.trans hgm)
    obtain ⟨evsA', -, hcase⟩ := Run_cases E self g' fname pScript hf hne hr he
    rcases hcase with ⟨e, -, hfl', -⟩ | ⟨-, hnone, -⟩ | ⟨pMod', -, hgm', -, hR'⟩
    · have h1 := hfl g.start
      rw [hfl' _] at h1
      cases h1
    · rw [hgm] at hnone
      cases hnone
    · rw [hgm] at hgm'
      cases hgm'
      rw [hR, hR']
      apply Run.finish_leave_flow
      apply Run.withModule_flow
      have hmiss := Run.obtainUnit_miss E fname pScript pMod
        (World.mk (Statics.mk (some self) g'.s_Cache) []
          (evsA' ++ [EngineCall.GetModule (ModName fname) true])) hg'
      rw [hmiss]
      exact hflow _

/-! ## The location query -/

/-- The `location` query in a race-type mode is the empty string, whatever the
camera and the layer are; otherwise it is the entry of `s_apLocations` at
three times the clamped row plus the clamped column, one of the nine labels.
The row and column come from the single-precision operations, taken as given. -/
theorem StateStr_location {F : Type} (H : Host F) :
    (H.m_Race = true → StateStr H "location" = Except.ok "") ∧
    (H.m_Race = false →
      ∃ r c : Nat, r ≤ 2 ∧ c ≤ 2 ∧ locationIndex H = 3 * r + c ∧
        StateStr H "location" = Except.ok (s_apLocations.getD (3 * r + c) "") ∧
        s_apLocations.getD (3 * r + c) "" ∈ s_apLocations) := by
  have hclamp : ∀ v : Int, ∃ n : Nat, n ≤ 2 ∧ clamp v 0 2 = n := by
    intro v
    unfold clamp
    split_ifs with h1 h2
    · exact ⟨0, by omega, rfl⟩
    · exact ⟨2, by omega, rfl⟩
    · exact ⟨v.toNat, by omega, by omega⟩
  refine ⟨?_, ?_⟩
  · intro h
    simp [StateStr, h]
  · intro h
    obtain ⟨r, hr, hr'⟩ := hclamp (H.float.toInt (H.float.mul (H.float.div H.m_Center.2
      (match H.GameLayer with
        | some (_, m_Height) => H.float.mul (H.float.ofInt m_Height) H.float.lit30
        | none => H.float.lit0)) H.float.lit3))
    obtain ⟨c, hc, hc'⟩ := hclamp (H.float.toInt (H.float.mul (H.float.div H.m_Center.1
      (match H.GameLayer with
        | some (m_Width, _) => H.float.mul (H.float.ofInt m_Width) H.float.lit30
        | none => H.float.lit0)) H.float.lit3))
    have hidx : locationIndex H = ((3 * r + c : Nat) : Int) := by
      unfold locationIndex
      simp only [hr', hc']
      push_cast
      ring
    have hnat : (locationIndex H).toNat = 3 * r + c := by
      rw [hidx]
      exact Int.toNat_natCast _
    refine ⟨r, c, hr, hc, by rw [hidx]; push_cast; ring, ?_, ?_⟩
    · simp [StateStr, h, hnat]
    · interval_cases r <;> interval_cases c <;> simp [s_apLocations]

/-! ## The claims -/

/-- C1: whenever a call in the trace of a run ended with an exception, or the
entry function's `Execute` returned anything but `asEXECUTION_FINISHED`, `Run`
returns false to its caller (it returns; nothing is propagated). -/
theorem Run_failure_contained {M : Type} (E : Env M) (self : CAngelScriptRunner) (g : Statics)
    (c : EngineCall) (hc : c ∈ (Run E self g).2.calls)
    (hbad : c.raised ≠ none ∨ ∃ fn r, c = EngineCall.Execute fn (Outcome.ret r) ∧
      r ≠ asEXECUTION_FINISHED) :
    (Run E self g).1 = RunResult.returned false := by
  by_cases hpre : ∃ fname pScript, self.m_pFilename = some fname ∧ fname ≠ "" ∧
      E.ReadFileStr fname = some pScript ∧ E.asCreateScriptEngine = true
  · obtain ⟨fname, pScript, hf, hne, hr, he⟩ := hpre
    by_contra hres
    obtain ⟨hclean, hgood⟩ := Run_true_clean E self g fname pScript hf hne hr he hres
    rcases hbad with hbad | ⟨fn, r, rfl, hr'⟩
    · exact hbad (hclean c hc)
    · exact hr' (hgood fn r hc)
  · exact (Run_early E self g hpre).1

/-- Witness for C1: the sample run whose `Execute` raises returns false. -/
theorem Run_failure_contained_witness :
    EngineCall.Execute 1 (Outcome.raise (Exn.std "No state with name bogus_key")) ∈
      (Run Sample.throwing Sample.runner Sample.fresh).2.calls ∧
    (Run Sample.throwing Sample.runner Sample.fresh).1 = RunResult.returned false :=
  ⟨by decide,
    Run_failure_contained Sample.throwing Sample.runner Sample.fresh
      (EngineCall.Execute 1 (Outcome.raise (Exn.std "No state with name bogus_key")))
      (by decide) (Or.inl (by decide))⟩

/-- C2 (the code at the failing input): in the sample run whose `Execute`
raises, `Run` returns false to its caller and `s_pActiveRunner`, null before
the run, still points to the runner after it. -/
theorem Run_exception_leaves_active_runner :
    Sample.fresh.s_pActiveRunner = none ∧
    (Run Sample.throwing Sample.runner Sample.fresh).1 = RunResult.returned false ∧
    (Run Sample.throwing Sample.runner Sample.fresh).2.s_pActiveRunner = some Sample.runner := by
  decide

/-- C3 (counterexample): `bogus_key` is none of the supported names, a run is
active, and the trampoline does not return the empty string: what `StateStr`
throws leaves it. -/
theorem Trampoline_bogus_key_not_empty :
    "bogus_key" ∉ stateNames ∧
    Trampoline Sample.host (some Sample.runner) "bogus_key" ≠ Except.ok "" ∧
    Trampoline Sample.host (some Sample.runner) "bogus_key" =
      Except.error "No state with name bogus_key" := by
  refine ⟨by decide, ?_, ?_⟩
  · intro h
    have h' : (Except.error "No state with name bogus_key" : Except String String) =
        Except.ok "" := h
    cases h'
  · rfl

/-- C3 (as amended): for every name that is none of the 18 names `StateStr`
has a branch for, `state(name)` called while a run is active does not return:
`StateStr` throws `std::invalid_argument` with the message
`No state with name <name>` and the trampoline lets it through. The trampoline
returns the empty string when no run is active. -/
theorem Trampoline_unknown_name {F : Type} (host : Host F) (self : CAngelScriptRunner)
    (Str : String) (h : Str ∉ stateNames) :
    stateNames.length = 18 ∧
    Trampoline host (some self) Str = Except.error ("No state with name " ++ Str) ∧
    Trampoline host none Str = Except.ok "" := by
  simp only [stateNames, List.mem_cons, List.mem_singleton, List.not_mem_nil, or_false,
    not_or] at h
  obtain ⟨h1, h2, h3, h4, h5, h6, h7, h8, h9, h10, h11, h12, h13, h14, h15, h16, h17, h18⟩ := h
  refine ⟨rfl, ?_, rfl⟩
  simp only [Trampoline, StateStr, h1, h2, h3, h4, h5, h6, h7, h8, h9, h10, h11, h12, h13, h14,
    h15, h16, h17, h18, if_false]

/-- Witness for C3: the name `bogus_key`. -/
theorem Trampoline_unknown_name_witness :
    "bogus_key" ∉ stateNames ∧
    (stateNames.length = 18 ∧
      Trampoline Sample.host (some Sample.runner) "bogus_key" =
        Except.error ("No state with name " ++ "bogus_key") ∧
      Trampoline Sample.host none "bogus_key" = Except.ok "") :=
  ⟨by decide, Trampoline_unknown_name Sample.host Sample.runner "bogus_key" (by decide)⟩

/-- C4 (counterexample): the first sample run builds the source but its
`SaveByteCode` fails; the second run of the same path and source loads nothing
and adds and builds the source again. -/
theorem Run_second_run_recompiles_after_failed_save :
    EngineCall.Build (Outcome.ret 0) ∈
      (Run Sample.saveFails Sample.runner Sample.fresh).2.calls ∧
    EngineCall.AddScriptSection "scripts/a.as" "void main() { }" (Outcome.ret 0) ∈
      (Run Sample.saveFails Sample.runner
        (Run Sample.saveFails Sample.runner Sample.fresh).2.toStatics).2.calls ∧
    EngineCall.Build (Outcome.ret 0) ∈
      (Run Sample.saveFails Sample.runner
        (Run Sample.saveFails Sample.runner Sample.fresh).2.toStatics).2.calls ∧
    (Run Sample.saveFails Sample.runner
        (Run Sample.saveFails Sample.runner Sample.fresh).2.toStatics).2.calls.filter
      (fun c => c.phase = Phase.module) = [EngineCall.GetModule "mod:scripts_a.as" true] := by
  decide

/-- C4 (as amended): after a first run that built the source and whose
`SaveByteCode` succeeded leaving a non-empty image, a second run of the same
path with the same source bytes, once it has its module, loads from exactly
that cached image; and when that load returns a non-negative code the second
run makes no add-section, build or save call and logs that the bytecode was
loaded from the cache. -/
theorem Run_second_run_loads_cached {M : Type} (E1 E2 : Env M) (self : CAngelScriptRunner)
    (g : Statics) (fname pScript : String) (it : CCacheEntry) (rc : Int)
    (hf : self.m_pFilename = some fname)
    (hr1 : E1.ReadFileStr fname = some pScript) (hr2 : E2.ReadFileStr fname = some pScript)
    (hsha : E2.sha256 pScript = E1.sha256 pScript)
    (hrc : 0 ≤ rc) (hsave : EngineCall.SaveByteCode (Outcome.ret rc) ∈ (Run E1 self g).2.calls)
    (hit : (Run E1 self g).2.s_Cache fname = some it) (hne : it.m_Bytecode ≠ []) :
    (EngineCall.GetModule (ModName fname) true ∈ (Run E2 self (Run E1 self g).2.toStatics).2.calls →
      ∃ res, EngineCall.LoadByteCode it.m_Bytecode res ∈
        (Run E2 self (Run E1 self g).2.toStatics).2.calls) ∧
    (∀ img rc2, 0 ≤ rc2 →
      EngineCall.LoadByteCode img (Outcome.ret rc2) ∈
        (Run E2 self (Run E1 self g).2.toStatics).2.calls →
      img = it.m_Bytecode ∧
      (∀ c ∈ (Run E2 self (Run E1 self g).2.toStatics).2.calls, c.phase ≠ Phase.compile) ∧
      LogLine.mk Level.info "angelscript" ("Loaded bytecode for '" ++ fname ++ "' from cache") ∈
        (Run E2 self (Run E1 self g).2.toStatics).2.log) := by
  have hhash : it.m_Hash = E2.sha256 pScript := by
    obtain ⟨e, he1, he2⟩ := Run_saved_hash E1 self g fname pScript hf hr1 rc hrc hsave
    rw [hit] at he1
    cases he1
    rw [hsha]
    exact he2
  have hit2 : (Run E1 self g).2.toStatics.s_Cache fname = some it := hit
  generalize (Run E1 self g).2.toStatics = g2 at hit2 ⊢
  refine ⟨?_, ?_⟩
  · intro hmem
    obtain ⟨pMod, evsA, evsO, evsX, evsT, LX, L', hgm, hA, hX, hT, hO, hcalls, -⟩ :=
      Run_unit_frame E2 self g2 fname pScript hf hr2 _ hmem (Or.inl rfl) (by intro n hn; cases hn)
    obtain ⟨LO, evs, -, -, o3, -, -, -, -, -, -, o10, -⟩ :=
      Run.obtainUnit_spec E2 fname pScript pMod
        { s_pActiveRunner := some self, s_Cache := g2.s_Cache, log := [],
          calls := evsA ++ [EngineCall.GetModule (ModName fname) true] }
    have hev : evs = evsO := List.append_cancel_left (o3.symm.trans hO)
    subst hev
    obtain ⟨res, hres⟩ := o10 it hit2 hhash hne
    refine ⟨res, ?_⟩
    rw [hcalls]
    simp [hres]
  · intro img rc2 hrc2 hmem
    obtain ⟨pMod, evsA, evsO, evsX, evsT, LX, L', hgm, hA, hX, hT, hO, hcalls, -, hlog, -⟩ :=
      Run_unit_frame E2 self g2 fname pScript hf hr2 _ hmem (Or.inl rfl) (by intro n hn; cases hn)
    obtain ⟨LO, evs, -, o2, o3, -, o5, -, -, -, o9, -, -, o12, -⟩ :=
      Run.obtainUnit_spec E2 fname pScript pMod
        { s_pActiveRunner := some self, s_Cache := g2.s_Cache, log := [],
          calls := evsA ++ [EngineCall.GetModule (ModName fname) true] }
    have hev : evs = evsO := List.append_cancel_left (o3.symm.trans hO)
    subst hev
    have hin : EngineCall.LoadByteCode img (Outcome.ret rc2) ∈ evs := by
      rw [hcalls] at hmem
      exact Run.mem_unit evsA evs evsX evsT _ _ hA hX hT hmem (Or.inl rfl) (by intro hn; cases hn)
    obtain ⟨it', hit', -, -, himg⟩ := o9 img _ hin
    simp only at hit'
    rw [hit2] at hit'
    cases hit'
    obtain ⟨hnc, hline, -⟩ := o12 img rc2 hrc2 hin
    refine ⟨himg, ?_, ?_⟩
    · rw [hcalls]
      intro c hc
      simp only [List.mem_append, List.mem_singleton] at hc
      rcases hc with ((((hc | rfl) | hc) | hc) | hc)
      · rw [(hA c hc).1]
        simp
      · simp [EngineCall.phase]
      · exact hnc c hc
      · rw [hX c hc]
        simp
      · rw [hT c hc]
        simp [EngineCall.phase]
    · rw [hlog, o2]
      simp [hline]

/-- Witness for C4: two runs of the sample engine, starting with an empty
cache. -/
theorem Run_second_run_loads_cached_witness :
    EngineCall.SaveByteCode (Outcome.ret 0) ∈ (Run Sample.env Sample.runner Sample.fresh).2.calls ∧
    (EngineCall.GetModule (ModName "scripts/a.as") true ∈
        (Run Sample.env Sample.runner (Run Sample.env Sample.runner Sample.fresh).2.toStatics).2.calls →
      ∃ res, EngineCall.LoadByteCode [1, 2, 3] res ∈
        (Run Sample.env Sample.runner (Run Sample.env Sample.runner Sample.fresh).2.toStatics).2.calls) :=
  ⟨by decide,
    (Run_second_run_loads_cached Sample.env Sample.env Sample.runner Sample.fresh "scripts/a.as"
      "void main() { }" { m_Hash := Sample.env.sha256 "void main() { }", m_Bytecode := [1, 2, 3] }
      0 rfl rfl rfl rfl (by decide) (by decide) (by decide) (by decide)).1⟩

/-- C5 (counterexample): the cache holds an entry with another hash, the sample
run recompiles successfully, its `SaveByteCode` fails, and afterwards the
stored hash is still not the hash of the current source. -/
theorem Run_stale_hash_kept_after_failed_save :
    (Sample.stale.s_Cache "scripts/a.as").map CCacheEntry.m_Hash ≠
      some (Sample.saveFails.sha256 "void main() { }") ∧
    EngineCall.Build (Outcome.ret 0) ∈ (Run Sample.saveFails Sample.runner Sample.stale).2.calls ∧
    (Run Sample.saveFails Sample.runner Sample.stale).1 = RunResult.returned true ∧
    ((Run Sample.saveFails Sample.runner Sample.stale).2.s_Cache "scripts/a.as").map
      CCacheEntry.m_Hash ≠ some (Sample.saveFails.sha256 "void main() { }") := by
  decide

/-- C5 (as amended): in a run for which the cache holds an entry for the
script path whose stored hash differs from the hash of the source just read,
no image is loaded; once the module exists the source is added for
compilation; and after a recompilation whose `SaveByteCode` succeeded the
entry's stored hash is the hash of the current source. -/
theorem Run_stale_entry_recompiled {M : Type} (E : Env M) (self : CAngelScriptRunner)
    (g : Statics) (fname pScript : String) (it : CCacheEntry)
    (hf : self.m_pFilename = some fname) (hr : E.ReadFileStr fname = some pScript)
    (hit : g.s_Cache fname = some it) (hh : it.m_Hash ≠ E.sha256 pScript) :
    (∀ img res, EngineCall.LoadByteCode img res ∉ (Run E self g).2.calls) ∧
    (EngineCall.GetModule (ModName fname) true ∈ (Run E self g).2.calls →
      ∃ res, EngineCall.AddScriptSection fname pScript res ∈ (Run E self g).2.calls) ∧
    (∀ rc, 0 ≤ rc → EngineCall.SaveByteCode (Outcome.ret rc) ∈ (Run E self g).2.calls →
      ∃ e, (Run E self g).2.s_Cache fname = some e ∧ e.m_Hash = E.sha256 pScript) := by
  have key : ∀ c, c ∈ (Run E self g).2.calls →
      (c.phase = Phase.module ∨ c.phase = Phase.compile) → (∀ n, c ≠ EngineCall.GetModule n false) →
      ∃ pMod evsA evsO evsX evsT,
        (∀ a ∈ evsA, a.phase = Phase.globals ∧ a.raised = none) ∧
        (∀ a ∈ evsX, a.phase = Phase.entry) ∧
        (∀ a ∈ evsT, a = EngineCall.ShutDownAndRelease) ∧
        (Run E self g).2.calls = evsA ++ [EngineCall.GetModule (ModName fname) true] ++ evsO ++
          evsX ++ evsT ∧
        (Run E self g).2.s_Cache = (Run.obtainUnit E fname pScript pMod
          { s_pActiveRunner := some self, s_Cache := g.s_Cache, log := [],
            calls := evsA ++ [EngineCall.GetModule (ModName fname) true] }).2.s_Cache ∧
        (∀ rc, 0 ≤ rc → EngineCall.SaveByteCode (Outcome.ret rc) ∈ evsO →
          ∃ e, (Run.obtainUnit E fname pScript pMod
            { s_pActiveRunner := some self, s_Cache := g.s_Cache, log := [],
              calls := evsA ++ [EngineCall.GetModule (ModName fname) true] }).2.s_Cache fname = some e ∧
            e.m_Hash = E.sha256 pScript) ∧
        (∀ img res, EngineCall.LoadByteCode img res ∉ evsO) ∧
        (∃ res, EngineCall.AddScriptSection fname pScript res ∈ evsO) := by
    intro c hc hph hgmf
    obtain ⟨fname', pScript', pMod, evsA, hf', hne, hr', he, hgm, hA, -, hR⟩ :=
      Run_reaches E self g c hc
        (by rcases hph with h | h <;> rw [h] <;> simp) hgmf
    rw [hf] at hf'
    cases hf'
    rw [hr] at hr'
    cases hr'
    obtain ⟨LO, evsO, -, -, o3, -, -, -, -, o8, o9, -, o11, -⟩ :=
      Run.obtainUnit_spec E fname pScript pMod
        { s_pActiveRunner := some self, s_Cache := g.s_Cache, log := [],
          calls := evsA ++ [EngineCall.GetModule (ModName fname) true] }
    obtain ⟨LX, evsX, evsT, m1, m2, -, m4, -, -, -, m8, -⟩ := Run.module_frame E fname pScript pMod
      { s_pActiveRunner := some self, s_Cache := g.s_Cache, log := [],
        calls := evsA ++ [EngineCall.GetModule (ModName fname) true] }
    have hnl : ∀ img res, EngineCall.LoadByteCode img res ∉ evsO := by
      intro img res hmem
      obtain ⟨it', hit', hh', -⟩ := o9 img res hmem
      simp only at hit'
      rw [hit] at hit'
      cases hit'
      exact hh hh'
    refine ⟨pMod, evsA, evsO, evsX, evsT, hA, m4, m8, ?_, ?_, o8, hnl, o11 hnl⟩
    · rw [hR, m1, o3]
    · rw [hR, m2]
  refine ⟨?_, ?_, ?_⟩
  · intro img res hmem
    obtain ⟨pMod, evsA, evsO, evsX, evsT, hA, hX, hT, hcalls, -, -, hnl, -⟩ :=
      key _ hmem (Or.inl rfl) (by intro n hn; cases hn)
    rw [hcalls] at hmem
    exact hnl img res (Run.mem_unit evsA evsO evsX evsT _ _ hA hX hT hmem (Or.inl rfl) (by intro hn; cases hn))
  · intro hmem
    obtain ⟨pMod, evsA, evsO, evsX, evsT, hA, hX, hT, hcalls, -, -, -, res, hres⟩ :=
      key _ hmem (Or.inl rfl) (by intro n hn; cases hn)
    refine ⟨res, ?_⟩
    rw [hcalls]
    simp [hres]
  · intro rc hrc hmem
    obtain ⟨pMod, evsA, evsO, evsX, evsT, hA, hX, hT, hcalls, hcache, hsave, -⟩ :=
      key _ hmem (Or.inr rfl) (by intro n hn; cases hn)
    rw [hcalls] at hmem
    rw [hcache]
    exact hsave rc hrc
      (Run.mem_unit evsA evsO evsX evsT _ _ hA hX hT hmem (Or.inr rfl) (by intro hn; cases hn))

/-- Witness for C5: the sample engine run over the stale cache. -/
theorem Run_stale_entry_recompiled_witness :
    (∀ img res, EngineCall.LoadByteCode img res ∉
      (Run Sample.env Sample.runner Sample.stale).2.calls) ∧
    (EngineCall.GetModule (ModName "scripts/a.as") true ∈
        (Run Sample.env Sample.runner Sample.stale).2.calls →
      ∃ res, EngineCall.AddScriptSection "scripts/a.as" "void main() { }" res ∈
        (Run Sample.env Sample.runner Sample.stale).2.calls) ∧
    (∀ rc, 0 ≤ rc →
      EngineCall.SaveByteCode (Outcome.ret rc) ∈ (Run Sample.env Sample.runner Sample.stale).2.calls →
      ∃ e, (Run Sample.env Sample.runner Sample.stale).2.s_Cache "scripts/a.as" = some e ∧
        e.m_Hash = Sample.env.sha256 "void main() { }") :=
  Run_stale_entry_recompiled Sample.env Sample.runner Sample.stale "scripts/a.as"
    "void main() { }"
    { m_Hash := Sample.env.sha256 "void main() { print(1); }", m_Bytecode := [9, 9] }
    rfl rfl (by decide) (by decide)

/-- C6: the candidates are tried in the order `void main()`, `void run()`,
`void tclient()` and the first one the unit has is selected, for every unit
(so with `run` and `tclient` but no `main`, `run` is selected); in a run, the
function that is prepared or executed is the first one found in that order;
when the unit has none of the three, the entry stage ends with `Success`
false after the three lookups and the error log line, with no other call; and
in a run where all three lookups find nothing the run returns false, logs that
no entry function was found, and creates, prepares and executes no context. -/
theorem Run_entry_resolution {M : Type} (E : Env M) :
    Candidates = ["void main()", "void run()", "void tclient()"] ∧
    (∀ m w, (Run.findEntry E m Candidates w).1 =
      match E.GetFunctionByDecl m "void main()" with
      | some f => some f
      | none =>
        match E.GetFunctionByDecl m "void run()" with
        | some f => some f
        | none => E.GetFunctionByDecl m "void tclient()") ∧
    (∀ m w f, E.GetFunctionByDecl m "void main()" = none →
      E.GetFunctionByDecl m "void run()" = some f →
      (Run.findEntry E m Candidates w).1 = some f) ∧
    (∀ fname m w, E.GetFunctionByDecl m "void main()" = none →
      E.GetFunctionByDecl m "void run()" = none →
      E.GetFunctionByDecl m "void tclient()" = none →
      Run.execute E fname m w = (Flow.normal false,
        (((w.call (EngineCall.GetFunctionByDecl "void main()" none)).call
          (EngineCall.GetFunctionByDecl "void run()" none)).call
          (EngineCall.GetFunctionByDecl "void tclient()" none)).log_error "angelscript"
          ("No entry function found in '" ++ fname ++
            "' (expected one of: void main(), void run(), void tclient())"))) ∧
    (∀ self g fn,
      ((∃ rc, EngineCall.Prepare fn rc ∈ (Run E self g).2.calls) ∨
        (∃ res, EngineCall.Execute fn res ∈ (Run E self g).2.calls)) →
      EngineCall.GetFunctionByDecl "void main()" (some fn) ∈ (Run E self g).2.calls ∨
      (EngineCall.GetFunctionByDecl "void main()" none ∈ (Run E self g).2.calls ∧
        EngineCall.GetFunctionByDecl "void run()" (some fn) ∈ (Run E self g).2.calls) ∨
      (EngineCall.GetFunctionByDecl "void main()" none ∈ (Run E self g).2.calls ∧
        EngineCall.GetFunctionByDecl "void run()" none ∈ (Run E self g).2.calls ∧
        EngineCall.GetFunctionByDecl "void tclient()" (some fn) ∈ (Run E self g).2.calls)) ∧
    (∀ self g,
      EngineCall.GetFunctionByDecl "void main()" none ∈ (Run E self g).2.calls →
      EngineCall.GetFunctionByDecl "void run()" none ∈ (Run E self g).2.calls →
      EngineCall.GetFunctionByDecl "void tclient()" none ∈ (Run E self g).2.calls →
      (Run E self g).1 = RunResult.returned false ∧
      (∃ fname, self.m_pFilename = some fname ∧
        LogLine.mk Level.error "angelscript" ("No entry function found in '" ++ fname ++
          "' (expected one of: void main(), void run(), void tclient())") ∈ (Run E self g).2.log) ∧
      ∀ c ∈ (Run E self g).2.calls, (∀ ok, c ≠ EngineCall.CreateContext ok) ∧
        (∀ fn rc, c ≠ EngineCall.Prepare fn rc) ∧ (∀ fn res, c ≠ EngineCall.Execute fn res)) := by
  have hfind : ∀ m w, (Run.findEntry E m Candidates w).1 =
      match E.GetFunctionByDecl m "void main()" with
      | some f => some f
      | none =>
        match E.GetFunctionByDecl m "void run()" with
        | some f => some f
        | none => E.GetFunctionByDecl m "void tclient()" := by
    intro m w
    simp only [Run.findEntry, Candidates]
    cases E.GetFunctionByDecl m "void main()" with
    | some f => rfl
    | none =>
      cases E.GetFunctionByDecl m "void run()" with
      | some f => rfl
      | none =>
        cases E.GetFunctionByDecl m "void tclient()" with
        | some f => rfl
        | none => rfl
  -- membership of an entry-phase call of the run in the calls of the entry stage
  have hmem : ∀ (self : CAngelScriptRunner) (g : Statics) (fname : String) (m : M) (w1 : World)
      (evs : List EngineCall) (c : EngineCall),
      (∀ a ∈ w1.calls, a.phase ≠ Phase.entry) →
      (Run E self g).2.calls = (Run.execute E fname m w1).2.calls ++ [EngineCall.ShutDownAndRelease] →
      (Run.execute E fname m w1).2.calls = w1.calls ++ evs →
      c.phase = Phase.entry → c ∈ (Run E self g).2.calls → c ∈ evs := by
    intro self g fname m w1 evs c hw1 hcalls hx hph hc
    rw [hcalls, hx] at hc
    simp only [List.mem_append, List.mem_singleton] at hc
    rcases hc with (hc | hc) | hc
    · exact absurd hph (hw1 c hc)
    · exact hc
    · subst hc
      cases hph
  refine ⟨rfl, hfind, ?_, ?_, ?_, ?_⟩
  · intro m w f h1 h2
    rw [hfind, h1, h2]
  · intro fname m w h1 h2 h3
    simp [Run.execute, Run.findEntry, Candidates, h1, h2, h3]
  · intro self g fn h
    have hex : ∃ c, c ∈ (Run E self g).2.calls ∧ c.phase = Phase.entry := by
      rcases h with ⟨rc, h⟩ | ⟨res, h⟩
      · exact ⟨_, h, rfl⟩
      · exact ⟨_, h, rfl⟩
    obtain ⟨c, hc, hph⟩ := hex
    obtain ⟨fname, m, w1, L', hf, hw1, hcalls, -, -, -⟩ := Run_entry_frame E self g c hc hph
    obtain ⟨L, evs, -, x2, x3, -, -⟩ := Run.execute_entry E fname m w1
    have hsub : ∀ a ∈ evs, a ∈ (Run E self g).2.calls := by
      intro a ha
      rw [hcalls, x2]
      simp [ha]
    have h' : (∃ rc, EngineCall.Prepare fn rc ∈ evs) ∨ (∃ res, EngineCall.Execute fn res ∈ evs) := by
      rcases h with ⟨rc, h⟩ | ⟨res, h⟩
      · exact Or.inl ⟨rc, hmem self g fname m w1 evs _ hw1 hcalls x2 rfl h⟩
      · exact Or.inr ⟨res, hmem self g fname m w1 evs _ hw1 hcalls x2 rfl h⟩
    rcases x3 fn h' with h1 | ⟨h1, h2⟩ | ⟨h1, h2, h3⟩
    · exact Or.inl (hsub _ h1)
    · exact Or.inr (Or.inl ⟨hsub _ h1, hsub _ h2⟩)
    · exact Or.inr (Or.inr ⟨hsub _ h1, hsub _ h2, hsub _ h3⟩)
  · intro self g h1 h2 h3
    obtain ⟨fname, m, w1, L', hf, hw1, hcalls, hlog, hiff, hres⟩ :=
      Run_entry_frame E self g _ h1 rfl
    obtain ⟨L, evs, x1, x2, -, x4, -⟩ := Run.execute_entry E fname m w1
    obtain ⟨hfl, hline, hno⟩ := x4 (hmem self g fname m w1 evs _ hw1 hcalls x2 rfl h1)
      (hmem self g fname m w1 evs _ hw1 hcalls x2 rfl h2)
      (hmem self g fname m w1 evs _ hw1 hcalls x2 rfl h3)
    refine ⟨?_, ⟨fname, hf, ?_⟩, ?_⟩
    · rcases hres with hres | hres
      · rw [hiff.1 hres] at hfl
        cases hfl
      · exact hres
    · rw [hlog, x1]
      simp [hline]
    · intro c hc
      rw [hcalls, x2] at hc
      simp only [List.mem_append, List.mem_singleton] at hc
      rcases hc with (hc | hc) | hc
      · have := hw1 c hc
        refine ⟨?_, ?_, ?_⟩ <;> intros <;> intro hcc <;> subst hcc <;> exact this rfl
      · exact hno c hc
      · subst hc
        refine ⟨?_, ?_, ?_⟩ <;> intros <;> intro hcc <;> cases hcc

/-- Witness for C6: a unit with `run` and `tclient` but no `main` selects `run`,
and the sample run of a unit with none of the three returns false. -/
theorem Run_entry_resolution_witness :
    (Run.findEntry Sample.runAndTclient 0 Candidates Sample.fresh.start).1 = some 2 ∧
    (Run Sample.noEntry Sample.runner Sample.fresh).1 = RunResult.returned false :=
  ⟨(Run_entry_resolution Sample.runAndTclient).2.2.1 0 Sample.fresh.start 2 rfl rfl,
    ((Run_entry_resolution Sample.noEntry).2.2.2.2.2 Sample.runner Sample.fresh
      (by decide) (by decide) (by decide)).1⟩

/-- C7 (the code at the failing input): the cache holds a non-empty image under
the hash of the current source, the sample engine's `LoadByteCode` fails on it
and its `GetModule` after the discard gives no module. The run discards the
module, asks for it again and goes on to add the source text through the null
pointer it got (source lines 417 and 423; the first `GetModule` is checked at
lines 390-394): it makes no add-section or build call and does not return,
while the same run over a cache with no entry for the path returns true. -/
theorem Run_failed_load_dereferences_null :
    Sample.loadFailsNoModule.ReadFileStr "scripts/a.as" = some "void main() { }" ∧
    Sample.cached.s_Cache "scripts/a.as" =
      some { m_Hash := Sample.loadFailsNoModule.sha256 "void main() { }",
             m_Bytecode := [1, 2, 3] } ∧
    (Run Sample.loadFailsNoModule Sample.runner Sample.cached).2.calls.filter
        (fun c => c.phase = Phase.module) =
      [EngineCall.GetModule "mod:scripts_a.as" true,
        EngineCall.LoadByteCode [1, 2, 3] (Outcome.ret (-1)),
        EngineCall.DiscardModule "mod:scripts_a.as",
        EngineCall.GetModule "mod:scripts_a.as" false] ∧
    (∀ c ∈ (Run Sample.loadFailsNoModule Sample.runner Sample.cached).2.calls,
      c.phase ≠ Phase.compile) ∧
    (Run Sample.loadFailsNoModule Sample.runner Sample.cached).1 =
      RunResult.undefinedBehaviour ∧
    Sample.fresh.s_Cache "scripts/a.as" = none ∧
    (Run Sample.loadFailsNoModule Sample.runner Sample.fresh).1 = RunResult.returned true := by
  decide

/-- C8: when `AddScriptSection` or `Build` returns a negative code in a run, the
run returns false, makes no entry lookup, context or execution call, and
leaves the whole cache as it was before the run. -/
theorem Run_compile_failure_keeps_cache {M : Type} (E : Env M) (self : CAngelScriptRunner)
    (g : Statics) (n code : String) (rc : Int) (hrc : rc < 0)
    (h : EngineCall.AddScriptSection n code (Outcome.ret rc) ∈ (Run E self g).2.calls ∨
      EngineCall.Build (Outcome.ret rc) ∈ (Run E self g).2.calls) :
    (Run E self g).1 = RunResult.returned false ∧
    (Run E self g).2.s_Cache = g.s_Cache ∧
    ∀ c ∈ (Run E self g).2.calls, c.phase ≠ Phase.entry := by
  have hex : ∃ c, c ∈ (Run E self g).2.calls ∧ c.phase = Phase.compile := by
    rcases h with h | h
    · exact ⟨_, h, rfl⟩
    · exact ⟨_, h, rfl⟩
  obtain ⟨c0, hc0, hph0⟩ := hex
  obtain ⟨fname, pScript, pMod, evsA, hf, hne, hr, he, hgm, hA, -, hR⟩ :=
    Run_reaches E self g c0 hc0 (by simp [hph0]) (by intro n hn; subst hn; simp [EngineCall.phase] at hph0)
  rw [hR] at h ⊢
  obtain ⟨LO, evsO, -, -, o3, -, o5, -, o7, -⟩ := Run.obtainUnit_spec E fname pScript pMod
    { s_pActiveRunner := some self, s_Cache := g.s_Cache, log := [],
      calls := evsA ++ [EngineCall.GetModule (ModName fname) true] }
  obtain ⟨LX, evsX, evsT, m1, m2, -, m4, m5, -, -, m8, -⟩ := Run.module_frame E fname pScript pMod
    { s_pActiveRunner := some self, s_Cache := g.s_Cache, log := [],
      calls := evsA ++ [EngineCall.GetModule (ModName fname) true] }
  rw [m1, o3] at h
  have hin : EngineCall.AddScriptSection n code (Outcome.ret rc) ∈ evsO ∨
      EngineCall.Build (Outcome.ret rc) ∈ evsO := by
    rcases h with h | h
    · left
      simp only [List.mem_append, List.mem_singleton] at h
      rcases h with ((((h | h) | h) | h) | h)
      · have := (hA _ h).1
        simp [EngineCall.phase] at this
      · cases h
      · exact h
      · have := m4 _ h
        simp [EngineCall.phase] at this
      · cases m8 _ h
    · right
      simp only [List.mem_append, List.mem_singleton] at h
      rcases h with ((((h | h) | h) | h) | h)
      · have := (hA _ h).1
        simp [EngineCall.phase] at this
      · cases h
      · exact h
      · have := m4 _ h
        simp [EngineCall.phase] at this
      · cases m8 _ h
  obtain ⟨⟨m', hm'⟩, hcache⟩ := o7 n code rc hrc hin
  obtain ⟨hres, hX⟩ := m5 m' hm'
  refine ⟨hres, by rw [m2, hcache], ?_⟩
  rw [m1, o3, hX]
  intro c hc
  simp only [List.mem_append, List.mem_singleton, List.append_nil, List.not_mem_nil, or_false] at hc
  rcases hc with (((hc | rfl) | hc) | hc)
  · rw [(hA c hc).1]
    simp
  · simp [EngineCall.phase]
  · rcases o5 c hc with h' | h' <;> rw [h'] <;> simp
  · rw [m8 c hc]
    simp [EngineCall.phase]

/-- Witness for C8: the sample engine whose `Build` fails. -/
theorem Run_compile_failure_keeps_cache_witness :
    EngineCall.Build (Outcome.ret (-1)) ∈
      (Run Sample.buildFails Sample.runner Sample.stale).2.calls ∧
    ((Run Sample.buildFails Sample.runner Sample.stale).1 = RunResult.returned false ∧
      (Run Sample.buildFails Sample.runner Sample.stale).2.s_Cache = Sample.stale.s_Cache ∧
      ∀ c ∈ (Run Sample.buildFails Sample.runner Sample.stale).2.calls, c.phase ≠ Phase.entry) :=
  ⟨by decide,
    Run_compile_failure_keeps_cache Sample.buildFails Sample.runner Sample.stale "" "" (-1)
      (by decide) (Or.inr (by decide))⟩

/-- C9: for a read-mode stream over a buffer of `n` bytes with cursor `o ≤ n`,
`Read` of `s` bytes succeeds exactly when `o + s ≤ n`; on success it delivers
the `s` bytes `buffer[o .. o+s)` and moves the cursor to `o + s`; on failure it
returns `asERROR` and leaves the cursor where it was. The buffer size is an
object size (below `2^63`) and `s` is an `asUINT`. -/
theorem CBytecodeStream.Read_spec (buf : List Nat) (o s : Nat) (out : Option (List Nat))
    (ho : o ≤ buf.length) (hn : buf.length < 2 ^ 63) (hs : s < 2 ^ ASUINT_BITS) :
    (((CBytecodeStream.mk out (some buf) buf.length o).Read s).1 = asSUCCESS
        ↔ o + s ≤ buf.length) ∧
    (o + s ≤ buf.length →
        ((CBytecodeStream.mk out (some buf) buf.length o).Read s).2.1.length = s ∧
        (∀ i, i < s →
          ((CBytecodeStream.mk out (some buf) buf.length o).Read s).2.1[i]? = buf[o + i]?) ∧
        ((CBytecodeStream.mk out (some buf) buf.length o).Read s).2.2.m_Offset = o + s) ∧
    (¬ o + s ≤ buf.length →
        ((CBytecodeStream.mk out (some buf) buf.length o).Read s).1 = asERROR ∧
        ((CBytecodeStream.mk out (some buf) buf.length o).Read s).2.2.m_Offset = o) := by
  have hlt : o + s < 2 ^ SIZE_BITS := by
    have h1 : o < 2 ^ 63 := lt_of_le_of_lt ho hn
    have h2 : s < 2 ^ 32 := hs
    have h3 : (2 : Nat) ^ 63 + 2 ^ 32 ≤ 2 ^ 64 := by norm_num
    show o + s < 2 ^ 64
    omega
  have hmod : (o + s) % 2 ^ SIZE_BITS = o + s := Nat.mod_eq_of_lt hlt
  by_cases h : o + s ≤ buf.length
  · have hng : ¬ (o + s > buf.length) := by omega
    refine ⟨?_, ?_, ?_⟩
    · simp [CBytecodeStream.Read, hmod, hng, h]
    · intro _
      refine ⟨?_, ?_, ?_⟩
      · simp [CBytecodeStream.Read, hmod, hng]
        omega
      · intro i hi
        simp [CBytecodeStream.Read, hmod, hng, List.getElem?_take, hi]
      · simp [CBytecodeStream.Read, hmod, hng]
    · intro hc
      exact absurd h hc
  · have hg : o + s > buf.length := by omega
    refine ⟨?_, ?_, ?_⟩
    · simp [CBytecodeStream.Read, hmod, hg, h, asERROR, asSUCCESS]
    · intro hc
      exact absurd hc h
    · intro _
      simp [CBytecodeStream.Read, hmod, hg]

/-- Witness for C9: a 4-byte buffer, cursor 1, a read of 2 bytes. -/
theorem CBytecodeStream.Read_spec_witness :
    (((CBytecodeStream.mk none (some [10, 20, 30, 40]) [10, 20, 30, 40].length 1).Read 2).1
        = asSUCCESS ↔ 1 + 2 ≤ [10, 20, 30, 40].length) ∧
    (1 + 2 ≤ [10, 20, 30, 40].length →
        ((CBytecodeStream.mk none (some [10, 20, 30, 40]) [10, 20, 30, 40].length 1).Read 2).2.1.length = 2 ∧
        (∀ i, i < 2 →
          ((CBytecodeStream.mk none (some [10, 20, 30, 40]) [10, 20, 30, 40].length 1).Read 2).2.1[i]?
            = [10, 20, 30, 40][1 + i]?) ∧
        ((CBytecodeStream.mk none (some [10, 20, 30, 40]) [10, 20, 30, 40].length 1).Read 2).2.2.m_Offset
          = 1 + 2) ∧
    (¬ 1 + 2 ≤ [10, 20, 30, 40].length →
        ((CBytecodeStream.mk none (some [10, 20, 30, 40]) [10, 20, 30, 40].length 1).Read 2).1 = asERROR ∧
        ((CBytecodeStream.mk none (some [10, 20, 30, 40]) [10, 20, 30, 40].length 1).Read 2).2.2.m_Offset = 1) :=
  CBytecodeStream.Read_spec [10, 20, 30, 40] 1 2 none (by decide) (by norm_num) (by norm_num [ASUINT_BITS])

/-- C11 (the code at the failing input): a first run caches the unit of
`void main() { print(1); }` and the cache is consistent. The script then
holds `void main() { }`; the second run builds it, its `SaveByteCode` writes
one block and fails, and the run returns true. Afterwards the entry pairs the
non-empty image `[1, 2]` with the hash of the first source, which is not the
hash of the second: the cache is no longer consistent. A third run, of the
first source again, accepts that entry and loads `[1, 2]` without compiling. -/
theorem Run_failed_save_breaks_consistency :
    Cache.consistent (Sample.picky "void main() { }") Sample.afterFirst.s_Cache ∧
    EngineCall.Build (Outcome.ret 0) ∈
      (Run (Sample.picky "void main() { }") Sample.runner Sample.afterFirst).2.calls ∧
    EngineCall.SaveByteCode (Outcome.ret asERROR) ∈
      (Run (Sample.picky "void main() { }") Sample.runner Sample.afterFirst).2.calls ∧
    (Run (Sample.picky "void main() { }") Sample.runner Sample.afterFirst).1 =
      RunResult.returned true ∧
    Sample.afterSecond.s_Cache "scripts/a.as" =
      some { m_Hash := (Sample.picky "void main() { }").sha256 "void main() { print(1); }",
             m_Bytecode := [1, 2] } ∧
    (Sample.picky "void main() { }").sha256 "void main() { print(1); }" ≠
      (Sample.picky "void main() { }").sha256 "void main() { }" ∧
    ¬ Cache.consistent (Sample.picky "void main() { }") Sample.afterSecond.s_Cache ∧
    EngineCall.LoadByteCode [1, 2] (Outcome.ret 0) ∈
      (Run (Sample.picky "void main() { print(1); }") Sample.runner Sample.afterSecond).2.calls ∧
    (Run (Sample.picky "void main() { print(1); }") Sample.runner Sample.afterSecond).2.calls.filter
      (fun c => c.phase = Phase.compile) = [] := by
  refine ⟨?_, by decide, by decide, by decide, by decide, by decide, ?_, by decide, by decide⟩
  · have hcalls : (Run (Sample.picky "void main() { print(1); }") Sample.runner
        Sample.fresh).2.calls.filter (fun c => c.phase = Phase.compile) =
        [EngineCall.AddScriptSection "scripts/a.as" "void main() { print(1); }" (Outcome.ret 0),
          EngineCall.Build (Outcome.ret 0), EngineCall.SaveByteCode (Outcome.ret 0)] := by
      decide
    have h1 : Cache.consistent (Sample.picky "void main() { print(1); }")
        (Run (Sample.picky "void main() { print(1); }") Sample.runner Sample.fresh).2.s_Cache := by
      apply Run_consistent_of_saved
      · intro n
        rfl
      · intro Key it hk
        cases hk
      · intro res hmem
        have hin : EngineCall.SaveByteCode res ∈
            (Run (Sample.picky "void main() { print(1); }") Sample.runner
              Sample.fresh).2.calls.filter (fun c => c.phase = Phase.compile) :=
          List.mem_filter.2 ⟨hmem, by simp [EngineCall.phase]⟩
        rw [hcalls] at hin
        simp only [List.mem_cons, List.mem_singleton, List.not_mem_nil, or_false] at hin
        rcases hin with hin | hin | hin
        · cases hin
        · cases hin
        · cases hin
          exact ⟨0, rfl, le_refl 0⟩
    exact h1
  · intro h
    obtain ⟨code, m, -, -, hs⟩ := h "scripts/a.as"
      { m_Hash := (Sample.picky "void main() { }").sha256 "void main() { print(1); }",
        m_Bytecode := [1, 2] } (by decide) (by decide)
    by_cases hm : m = "void main() { print(1); }"
    · simp [Env.serialization, Sample.picky, hm] at hs
    · simp [Env.serialization, Sample.picky, hm, asERROR] at hs

end TClient
